import Mathlib

/-!
# Verification of the AssetContainer instantiation and add/remove logic

Shallow embedding of the `AssetContainer` class (Babylon.js `assetContainer.ts`
as found in this repository's source): `instantiateModelsToScene`,
`addAllToScene` and `removeAllFromScene`, together with theorems about the
hierarchy clone-and-remap pass.

Entities are identified by their `uniqueId : Nat` (process-unique identifiers,
one per entity, assigned from a monotone counter exactly as the engine assigns
`uniqueId` at creation).  Object identity in the JavaScript source is modelled
by identifier equality; the clone objects created during a pass live in the
clone store (`storeMap`), which is the authority for their mutable fields
(JavaScript mutates the stored objects in place; the embedding updates the
store entry).
-/

/-- A single morph target, identified by its `uniqueId`. -/
structure MorphTarget where
  uniqueId : Nat
deriving DecidableEq

/-- A morph-target manager: an ordered collection of morph targets.
`numTargets` is `targets.length`; `getTarget i` is `targets[i]`. -/
structure MorphTargetManager where
  targets : List MorphTarget
deriving DecidableEq

/-- The observable data of a transform node or mesh:
`uniqueId`, `parent` (the parent's `uniqueId`, or `none` for a root),
whether the object is a `Mesh` (`isMesh`), its optional morph-target
manager, its optional bound skeleton (the skeleton's `uniqueId`), and
whether it is an instanced copy (`isAnInstance`). -/
structure NodeData where
  uniqueId : Nat
  parent : Option Nat
  isMesh : Bool
  morphTargetManager : Option MorphTargetManager
  skeleton : Option Nat
  isAnInstance : Bool
deriving DecidableEq

/-- A transform node / mesh together with its hierarchy of descendants
(the children reachable from it, in order).  The container's flat
`transformNodes` / `meshes` arrays are lists of such entries; only the
parentless ones are walked by `instantiateHierarchy`. -/
inductive HNode where
  | mk (data : NodeData) (children : List HNode)

/-- The node's own data. -/
def HNode.data : HNode → NodeData
  | .mk d _ => d

/-- A bone: only its optional link to an external transform node
(`_linkedTransformNode`, by `uniqueId`) is observable here. -/
structure Bone where
  linkedTransformNode : Option Nat
deriving DecidableEq

/-- A skeleton: identity, `name`, the optional override mesh (by `uniqueId`)
and its bones. -/
structure Skeleton where
  uniqueId : Nat
  name : String
  overrideMesh : Option Nat
  bones : List Bone
deriving DecidableEq

/-- An animation group: its `name` and the `uniqueId`s of the targets of its
animations (one per targeted animation). -/
structure AnimationGroup where
  name : String
  targets : List Nat
deriving DecidableEq

/-- The slice of an `AssetContainer` consumed by `instantiateModelsToScene`:
the four captured entity sequences. -/
structure AssetContainer where
  transformNodes : List HNode
  meshes : List HNode
  skeletons : List Skeleton
  animationGroups : List AnimationGroup

/-- An entry of the clone store `storeMap`: either a cloned node/mesh or a
cloned morph target (both kinds are stored under their clone `uniqueId`,
exactly as the source stores heterogeneous objects in `storeMap`). -/
inductive StoredEntity where
  | node (d : NodeData)
  | target (t : MorphTarget)
deriving DecidableEq

/-- The pass-local state of one `instantiateModelsToScene` call:
`fresh` is the scene's next unique identifier (clones receive consecutive
fresh identifiers), `convertionMap` is the Translation Table
(original `uniqueId` to clone `uniqueId`) and `storeMap` is the Clone Store
(clone `uniqueId` to the clone itself).  Both maps are association lists with
the most recent binding first, so `List.lookup` returns the latest write,
matching JavaScript object-key assignment. -/
structure PassState where
  fresh : Nat
  convertionMap : List (Nat × Nat)
  storeMap : List (Nat × StoredEntity)
deriving DecidableEq

/-- `storeMap[convertionMap[id]]`, returning the clone's identifier when both
lookups hit and `none` (JavaScript `undefined`) otherwise. -/
def lookupCloneId (st : PassState) (id : Nat) : Option Nat :=
  match List.lookup id st.convertionMap with
  | some cid =>
    match List.lookup cid st.storeMap with
    | some _ => some cid
    | none => none
  | none => none

/-- The in-place mutation `(copy as Mesh).skeleton = clone` performed through
the clone store: the entry stored under key `k` gets its `skeleton` field set
to `sk`.  (A morph-target entry is left unchanged: the corresponding property
write on such an object is unobservable.) -/
def setSkeletonInStore (sm : List (Nat × StoredEntity)) (k sk : Nat) :
    List (Nat × StoredEntity) :=
  sm.map fun p =>
    (p.1,
      if p.1 = k then
        match p.2 with
        | .node d => .node { d with skeleton := some sk }
        | .target t => .target t
      else p.2)

/-- Modelled from the spec: `MorphTargetManager.clone` (not part of the
source excerpt) produces a manager with the same number of targets, each a
new target object carrying a fresh `uniqueId`. -/
def cloneTargets (st : PassState) : List MorphTarget → PassState × List MorphTarget
  | [] => (st, [])
  | _ :: ts =>
    let nt : MorphTarget := ⟨st.fresh⟩
    let st1 : PassState := { st with fresh := st.fresh + 1 }
    let r := cloneTargets st1 ts
    (r.1, nt :: r.2)

/-- The morph-target registration loop of `onClone`: for every target index,
`convertionMap[oldTarget.uniqueId] = newTarget.uniqueId` and
`storeMap[newTarget.uniqueId] = newTarget`.  The two lists are walked in
lockstep over the common indices (the cloned manager has the same number of
targets as the original, so the walk covers every index). -/
def registerTargets (st : PassState) :
    List MorphTarget → List MorphTarget → PassState
  | ot :: ots, nt :: nts =>
    let st1 : PassState :=
      { st with
        convertionMap := (ot.uniqueId, nt.uniqueId) :: st.convertionMap,
        storeMap := (nt.uniqueId, .target nt) :: st.storeMap }
    registerTargets st1 ots nts
  | _, _ => st

/-- The `onClone` callback of `instantiateModelsToScene`, applied to a
source node and its freshly created raw clone:
records `convertionMap[source.uniqueId] = clone.uniqueId` and
`storeMap[clone.uniqueId] = clone`; when the clone is a mesh owning a
morph-target manager (the raw clone shares the source's manager), the
manager is replaced by a clone of the source's manager and every
(original target, cloned target) pair is registered in the same two maps.
The store receives the clone as finally visible through the JavaScript
object reference, i.e. with the cloned manager already attached. -/
def runOnClone (source clone : NodeData) (st : PassState) :
    PassState × NodeData :=
  let st1 : PassState :=
    { st with convertionMap := (source.uniqueId, clone.uniqueId) :: st.convertionMap }
  if clone.isMesh then
    match source.morphTargetManager with
    | some oldMgr =>
      let r := cloneTargets st1 oldMgr.targets
      let newMgr : MorphTargetManager := ⟨r.2⟩
      let clone1 : NodeData := { clone with morphTargetManager := some newMgr }
      let st2 : PassState :=
        { r.1 with storeMap := (clone1.uniqueId, .node clone1) :: r.1.storeMap }
      (registerTargets st2 oldMgr.targets newMgr.targets, clone1)
    | none =>
      let st2 : PassState :=
        { st1 with storeMap := (clone.uniqueId, .node clone) :: st1.storeMap }
      (st2, clone)
  else
    let st2 : PassState :=
      { st1 with storeMap := (clone.uniqueId, .node clone) :: st1.storeMap }
    (st2, clone)

mutual
/-- Modelled from the spec: `TransformNode.instantiateHierarchy(parent,
{doNotInstantiate: true}, onClone)` (not part of the source excerpt)
recursively clones the node and its descendants — the clone gets a fresh
`uniqueId`, the supplied parent, and shares heavy data; because real clones
(not instances) are requested, the clone is not an instanced copy.  The
`onClone` callback is invoked on every (source, clone) pair, in preorder.
Returns the updated state and the root clone's `uniqueId`. -/
def instantiateNode (parent : Option Nat) (st : PassState) :
    HNode → PassState × Nat
  | .mk d cs =>
    let cloneId := st.fresh
    let raw : NodeData :=
      { d with uniqueId := cloneId, parent := parent, isAnInstance := false }
    let st1 : PassState := { st with fresh := st.fresh + 1 }
    let r := runOnClone d raw st1
    (instantiateForest cloneId r.1 cs, cloneId)

/-- Clones every tree of a child forest under the given parent clone, in
order. -/
def instantiateForest (parentId : Nat) (st : PassState) :
    List HNode → PassState
  | [] => st
  | c :: cs =>
    let r := instantiateNode (some parentId) st c
    instantiateForest parentId r.1 cs
end

/-- One `forEach` block over a captured node array (the source repeats the
same block for `this.transformNodes` and `this.meshes`): every parentless
entry is hierarchy-instantiated with `null` parent and its root clone is
pushed onto the result's root-node list; entries with a parent are skipped.
Returns the updated state and the pushed root-clone identifiers, in order. -/
def instantiateRootList (st : PassState) : List HNode → PassState × List Nat
  | [] => (st, [])
  | o :: os =>
    if o.data.parent = none then
      let r := instantiateNode none st o
      let rest := instantiateRootList r.1 os
      (rest.1, r.2 :: rest.2)
    else
      instantiateRootList st os

/-- The bone-link rewriting of a cloned skeleton: every bone whose
`_linkedTransformNode` is set gets it reassigned to
`storeMap[convertionMap[node.uniqueId]]` — the linked node's clone when the
lookup hits, and `undefined` (`none`) when it misses. -/
def rewriteBones (st : PassState) (bones : List Bone) : List Bone :=
  bones.map fun b =>
    match b.linkedTransformNode with
    | some lid => { b with linkedTransformNode := lookupCloneId st lid }
    | none => b

/-- The `for (var m of this.meshes)` loop inside the skeleton block, for
source skeleton `s` and its clone: every non-instance mesh bound to `s` has
its clone (`storeMap[convertionMap[m.uniqueId]]`) rebound to the clone
skeleton; the first such mesh additionally triggers the bone-link rewrite,
guarded by membership of the clone in `alreadySwapped` (`swapped` here,
holding clone identifiers since clones are distinguished by `uniqueId`).
When the store lookup for the mesh's clone misses, the source throws a
`TypeError` on the property assignment, aborting the pass:
`skeletonMeshLoopE` below models that error path faithfully and agrees with
this total variant on every completed run (`skeletonMeshLoopE_some`); this
total variant serves the theorems about completed passes and leaves the
state unchanged in the case those runs never reach. -/
def skeletonMeshLoop (s : Skeleton) (st : PassState) (swapped : List Nat)
    (clone : Skeleton) : List NodeData → PassState × List Nat × Skeleton
  | [] => (st, swapped, clone)
  | m :: ms =>
    if m.skeleton = some s.uniqueId ∧ m.isAnInstance = false then
      match lookupCloneId st m.uniqueId with
      | some copyId =>
        let st1 : PassState :=
          { st with storeMap := setSkeletonInStore st.storeMap copyId clone.uniqueId }
        if clone.uniqueId ∈ swapped then
          skeletonMeshLoop s st1 swapped clone ms
        else
          let clone1 : Skeleton := { clone with bones := rewriteBones st1 clone.bones }
          skeletonMeshLoop s st1 (swapped ++ [clone.uniqueId]) clone1 ms
      | none => skeletonMeshLoop s st swapped clone ms
    else
      skeletonMeshLoop s st swapped clone ms

/-- The `this.skeletons.forEach` block.  For each skeleton: clone it
(modelled from the spec: `Skeleton.clone("Clone of " + name)` produces a new
skeleton object — given a fresh identifier standing for its object identity —
with the prefixed name and copies of the bones, each still linked to the same
transform nodes and the same override mesh as the original); when the
original declares an override mesh, the clone's override mesh is reassigned
to `storeMap[convertionMap[overrideMesh.uniqueId]]` (the mesh's clone, or
`undefined`/`none` on a miss); then the mesh loop runs and the resulting
clone is pushed onto the result list.  `meshData` is the container's flat
mesh array. -/
def instantiateSkeletons (meshData : List NodeData) (st : PassState)
    (swapped : List Nat) : List Skeleton → PassState × List Nat × List Skeleton
  | [] => (st, swapped, [])
  | s :: ss =>
    let cloneId := st.fresh
    let st1 : PassState := { st with fresh := st.fresh + 1 }
    let clone0 : Skeleton :=
      { uniqueId := cloneId, name := "Clone of " ++ s.name,
        overrideMesh := none, bones := s.bones }
    let clone1 : Skeleton :=
      match s.overrideMesh with
      | some om => { clone0 with overrideMesh := lookupCloneId st1 om }
      | none => clone0
    let r := skeletonMeshLoop s st1 swapped clone1 meshData
    let rest := instantiateSkeletons meshData r.1 r.2.1 ss
    (rest.1, rest.2.1, r.2.2 :: rest.2.2)

/-- The `this.animationGroups.forEach` block.  Modelled from the spec:
`AnimationGroup.clone(name, targetConverter)` (not part of the source
excerpt) produces a group with the same name whose every animation target is
the image of the original target under the supplied converter.  The
converter is the source's lambda: `storeMap[convertionMap[old.uniqueId]] ||
old` — the clone when the lookup hits, the original target otherwise. -/
def instantiateAnimationGroups (st : PassState) :
    List AnimationGroup → List AnimationGroup
  | [] => []
  | g :: gs =>
    let clone : AnimationGroup :=
      { name := g.name,
        targets := g.targets.map fun t =>
          match lookupCloneId st t with
          | some nt => nt
          | none => t }
    clone :: instantiateAnimationGroups st gs

/-- The output of `instantiateModelsToScene`: root-node clones (by
`uniqueId`; their data lives in the clone store), cloned skeletons and
cloned animation groups. -/
structure InstantiatedEntries where
  rootNodes : List Nat
  skeletons : List Skeleton
  animationGroups : List AnimationGroup
deriving DecidableEq

/-- The empty pass-local state: `convertionMap = {}`, `storeMap = {}`, with
`f0` the scene's next unique identifier. -/
def initialState (f0 : Nat) : PassState :=
  { fresh := f0, convertionMap := [], storeMap := [] }

/-- Steps 1–2 of the pass: hierarchy-instantiate the parentless transform
nodes, then the parentless meshes, accumulating the root-node list in that
order. -/
def cloneState (c : AssetContainer) (f0 : Nat) : PassState × List Nat :=
  let p1 := instantiateRootList (initialState f0) c.transformNodes
  let p2 := instantiateRootList p1.1 c.meshes
  (p2.1, p1.2 ++ p2.2)

/-- State after the skeleton block (step 4), together with the final
`alreadySwapped` list and the cloned skeletons. -/
def skeletonState (c : AssetContainer) (f0 : Nat) :
    PassState × List Nat × List Skeleton :=
  instantiateSkeletons (c.meshes.map HNode.data) (cloneState c f0).1 []
    c.skeletons

/-- The whole `instantiateModelsToScene` pass (the pass-local state and the
`alreadySwapped` list are returned alongside the result so that theorems can
inspect the Translation Table, the Clone Store and the rewrite log). -/
def instantiateModelsRun (c : AssetContainer) (f0 : Nat) :
    PassState × List Nat × InstantiatedEntries :=
  let s := skeletonState c f0
  (s.1, s.2.1,
    { rootNodes := (cloneState c f0).2,
      skeletons := s.2.2,
      animationGroups := instantiateAnimationGroups s.1 c.animationGroups })

/-- `AssetContainer.instantiateModelsToScene`, called on a scene whose next
unique identifier is `f0`: returns the `InstantiatedEntries` result. -/
def instantiateModelsToScene (c : AssetContainer) (f0 : Nat) :
    InstantiatedEntries :=
  (instantiateModelsRun c f0).2.2

/-! ## The error path of the skeleton block

`let copy = storeMap[convertionMap[m.uniqueId]]; (copy as Mesh).skeleton =
clone;` throws a `TypeError` when the lookup misses (`copy` is
`undefined`), because a property is written on `undefined`.  The exception
propagates out of `instantiateModelsToScene`: the pass aborts, no result is
returned, and the node/mesh clones created in steps 1–2 remain in the
scene — a partially performed pass.  The following variants keep that error
path (`none` is the thrown `TypeError`); on completed runs they coincide
with the total functions above. -/

/-- The mesh loop of the skeleton block with the source's error path kept:
a store-lookup miss for a bound non-instance mesh is the thrown
`TypeError` (`none`) instead of a skip. -/
def skeletonMeshLoopE (s : Skeleton) (st : PassState) (swapped : List Nat)
    (clone : Skeleton) :
    List NodeData → Option (PassState × List Nat × Skeleton)
  | [] => some (st, swapped, clone)
  | m :: ms =>
    if m.skeleton = some s.uniqueId ∧ m.isAnInstance = false then
      match lookupCloneId st m.uniqueId with
      | some copyId =>
        let st1 : PassState :=
          { st with storeMap := setSkeletonInStore st.storeMap copyId clone.uniqueId }
        if clone.uniqueId ∈ swapped then
          skeletonMeshLoopE s st1 swapped clone ms
        else
          let clone1 : Skeleton := { clone with bones := rewriteBones st1 clone.bones }
          skeletonMeshLoopE s st1 (swapped ++ [clone.uniqueId]) clone1 ms
      | none => none
    else
      skeletonMeshLoopE s st swapped clone ms

/-- The `this.skeletons.forEach` block with the error path kept: a
`TypeError` raised inside the mesh loop propagates (the current clone is
not pushed and no later skeleton is processed).  `Option.bind` is the
exception propagation. -/
def instantiateSkeletonsE (meshData : List NodeData) (st : PassState)
    (swapped : List Nat) :
    List Skeleton → Option (PassState × List Nat × List Skeleton)
  | [] => some (st, swapped, [])
  | s :: ss =>
    let st1 : PassState := { st with fresh := st.fresh + 1 }
    let clone0 : Skeleton :=
      { uniqueId := st.fresh, name := "Clone of " ++ s.name,
        overrideMesh := none, bones := s.bones }
    let clone1 : Skeleton :=
      match s.overrideMesh with
      | some om => { clone0 with overrideMesh := lookupCloneId st1 om }
      | none => clone0
    Option.bind (skeletonMeshLoopE s st1 swapped clone1 meshData) fun r =>
      Option.bind (instantiateSkeletonsE meshData r.1 r.2.1 ss) fun rest =>
        some (rest.1, rest.2.1, r.2.2 :: rest.2.2)

/-- The whole pass with the error path kept: a `TypeError` in the skeleton
block aborts `instantiateModelsToScene` before the animation-group block
runs and before any result is returned. -/
def instantiateModelsRunE (c : AssetContainer) (f0 : Nat) :
    Option (PassState × List Nat × InstantiatedEntries) :=
  Option.map
    (fun s => (s.1, s.2.1,
      ({ rootNodes := (cloneState c f0).2,
         skeletons := s.2.2,
         animationGroups :=
           instantiateAnimationGroups s.1 c.animationGroups } :
         InstantiatedEntries)))
    (instantiateSkeletonsE (c.meshes.map HNode.data) (cloneState c f0).1 []
      c.skeletons)

/-- `AssetContainer.instantiateModelsToScene` with the error path kept:
`none` is the `TypeError` escaping the call. -/
def instantiateModelsToSceneE (c : AssetContainer) (f0 : Nat) :
    Option InstantiatedEntries :=
  Option.map (fun r => r.2.2) (instantiateModelsRunE c f0)

/-! ## The scene side: `addAllToScene` / `removeAllFromScene`

Entities are again identified by `uniqueId` (reference equality of the
JavaScript objects).  Only the fourteen array-valued asset collections
named by `addAllToScene`/`removeAllFromScene` and the environment texture
are modelled; the trailing `_serializableComponents` hooks act on
component-private state outside these collections. -/

/-- A scene's asset collections and environment texture. -/
structure Scene where
  cameras : List Nat
  lights : List Nat
  meshes : List Nat
  skeletons : List Nat
  animations : List Nat
  animationGroups : List Nat
  multiMaterials : List Nat
  materials : List Nat
  morphTargetManagers : List Nat
  geometries : List Nat
  transformNodes : List Nat
  actionManagers : List Nat
  textures : List Nat
  reflectionProbes : List Nat
  environmentTexture : Option Nat
deriving DecidableEq

/-- The same asset collections as captured in an `AssetContainer`. -/
structure ContainerAssets where
  cameras : List Nat
  lights : List Nat
  meshes : List Nat
  skeletons : List Nat
  animations : List Nat
  animationGroups : List Nat
  multiMaterials : List Nat
  materials : List Nat
  morphTargetManagers : List Nat
  geometries : List Nat
  transformNodes : List Nat
  actionManagers : List Nat
  textures : List Nat
  reflectionProbes : List Nat
  environmentTexture : Option Nat
deriving DecidableEq

/-- Modelled from the spec: each `scene.addX(o)` pushes `o` onto the
corresponding scene array. -/
def addAsset (l : List Nat) (o : Nat) : List Nat := l ++ [o]

/-- Modelled from the spec: each `scene.removeX(o)` looks up the index of
`o` in the corresponding scene array and splices it out — i.e. removes the
first occurrence, doing nothing when `o` is absent. -/
def removeAsset (l : List Nat) (o : Nat) : List Nat :=
  match l with
  | [] => []
  | x :: xs => if x = o then xs else x :: removeAsset xs o

/-- `AssetContainer.addAllToScene`: pushes every container asset onto the
scene's collection of the same kind (one `forEach` per collection, in
source order), then installs the container's environment texture on the
scene when the container has one. -/
def addAllToScene (c : ContainerAssets) (s : Scene) : Scene :=
  let s1 : Scene :=
    { cameras := c.cameras.foldl addAsset s.cameras,
      lights := c.lights.foldl addAsset s.lights,
      meshes := c.meshes.foldl addAsset s.meshes,
      skeletons := c.skeletons.foldl addAsset s.skeletons,
      animations := c.animations.foldl addAsset s.animations,
      animationGroups := c.animationGroups.foldl addAsset s.animationGroups,
      multiMaterials := c.multiMaterials.foldl addAsset s.multiMaterials,
      materials := c.materials.foldl addAsset s.materials,
      morphTargetManagers := c.morphTargetManagers.foldl addAsset s.morphTargetManagers,
      geometries := c.geometries.foldl addAsset s.geometries,
      transformNodes := c.transformNodes.foldl addAsset s.transformNodes,
      actionManagers := c.actionManagers.foldl addAsset s.actionManagers,
      textures := c.textures.foldl addAsset s.textures,
      reflectionProbes := c.reflectionProbes.foldl addAsset s.reflectionProbes,
      environmentTexture := s.environmentTexture }
  if c.environmentTexture.isSome then
    { s1 with environmentTexture := c.environmentTexture }
  else s1

/-- `AssetContainer.removeAllFromScene`: removes every container asset from
the scene's collection of the same kind (first occurrence, one `forEach`
per collection, in source order), then clears the scene's environment
texture exactly when it is reference-equal to the container's. -/
def removeAllFromScene (c : ContainerAssets) (s : Scene) : Scene :=
  let s1 : Scene :=
    { cameras := c.cameras.foldl removeAsset s.cameras,
      lights := c.lights.foldl removeAsset s.lights,
      meshes := c.meshes.foldl removeAsset s.meshes,
      skeletons := c.skeletons.foldl removeAsset s.skeletons,
      animations := c.animations.foldl removeAsset s.animations,
      animationGroups := c.animationGroups.foldl removeAsset s.animationGroups,
      multiMaterials := c.multiMaterials.foldl removeAsset s.multiMaterials,
      materials := c.materials.foldl removeAsset s.materials,
      morphTargetManagers := c.morphTargetManagers.foldl removeAsset s.morphTargetManagers,
      geometries := c.geometries.foldl removeAsset s.geometries,
      transformNodes := c.transformNodes.foldl removeAsset s.transformNodes,
      actionManagers := c.actionManagers.foldl removeAsset s.actionManagers,
      textures := c.textures.foldl removeAsset s.textures,
      reflectionProbes := c.reflectionProbes.foldl removeAsset s.reflectionProbes,
      environmentTexture := s.environmentTexture }
  if c.environmentTexture = s1.environmentTexture then
    { s1 with environmentTexture := none }
  else s1

/-! ## Derived notions used by the statements -/

mutual
/-- All node data reachable in a hierarchy entry: the node itself followed by
the nodes of its descendant forest (preorder). -/
def treeNodes : HNode → List NodeData
  | .mk d cs => d :: forestNodes cs

/-- All node data reachable in a forest, in order. -/
def forestNodes : List HNode → List NodeData
  | [] => []
  | c :: cs => treeNodes c ++ forestNodes cs
end

/-- The node data captured by the cloning steps of one pass: every node of
every parentless entry of the container's transform-node and mesh arrays
(exactly the entities that `instantiateHierarchy` walks). -/
def capturedNodes (c : AssetContainer) : List NodeData :=
  forestNodes (c.transformNodes.filter fun o => o.data.parent = none) ++
  forestNodes (c.meshes.filter fun o => o.data.parent = none)

/-- Number of fresh identifiers one node clone consumes: one for the node
itself plus, for a mesh with a morph-target manager, one per morph target. -/
def nodeWeight (d : NodeData) : Nat :=
  1 + (if d.isMesh then
        (match d.morphTargetManager with
         | some M => M.targets.length
         | none => 0)
       else 0)

mutual
/-- Fresh identifiers consumed by cloning one hierarchy entry. -/
def treeWeight : HNode → Nat
  | .mk d cs => nodeWeight d + forestWeight cs

/-- Fresh identifiers consumed by cloning a forest. -/
def forestWeight : List HNode → Nat
  | [] => 0
  | c :: cs => treeWeight c + forestWeight cs
end

/-- Fresh identifiers consumed by one `forEach` block over a captured node
array (only the parentless entries are walked). -/
def rootsWeight (l : List HNode) : Nat :=
  forestWeight (l.filter fun o => o.data.parent = none)

/-- Total number of fresh identifiers one pass consumes: the two cloning
blocks plus one identifier per skeleton clone. -/
def containerWeight (c : AssetContainer) : Nat :=
  rootsWeight c.transformNodes + rootsWeight c.meshes + c.skeletons.length

/-- How the pass-local state evolves across a cloning step: the counter only
grows, both maps only gain entries (prepended, so earlier bindings are
shadowed only by the new ones), every new Translation-Table value and every
new Clone-Store key is an identifier allocated during the step, the new
Translation-Table values are pairwise distinct, and each of them is
resolvable in the resulting Clone Store. -/
def StepAdds (st st' : PassState) : Prop :=
  st.fresh ≤ st'.fresh ∧
  ∃ dc ds,
    st'.convertionMap = dc ++ st.convertionMap ∧
    st'.storeMap = ds ++ st.storeMap ∧
    (∀ p ∈ dc, st.fresh ≤ p.2 ∧ p.2 < st'.fresh) ∧
    (∀ p ∈ ds, st.fresh ≤ p.1 ∧ p.1 < st'.fresh) ∧
    List.Nodup (dc.map Prod.snd) ∧
    (∀ p ∈ dc, (List.lookup p.2 st'.storeMap).isSome = true)

/-- The morph-target part of a faithful mesh clone, relative to a state and
a lower bound `b` on freshly allocated identifiers: if the source `d0` is a
mesh with a manager, the clone `d'` has a manager of the same target count,
and for every index the (original id, clone id) pair is in the Translation
Table, the clone target is in the Clone Store, and the clone target's
identifier is at least `b`. -/
def morphCloneOk (st : PassState) (b : Nat) (d0 d' : NodeData) : Prop :=
  ∀ M, d0.isMesh = true → d0.morphTargetManager = some M →
    ∃ M', d'.morphTargetManager = some M' ∧
      M'.targets.length = M.targets.length ∧
      ∀ i (h : i < M.targets.length) (h' : i < M'.targets.length),
        ((M.targets.get ⟨i, h⟩).uniqueId, (M'.targets.get ⟨i, h'⟩).uniqueId) ∈
          st.convertionMap ∧
        ((M'.targets.get ⟨i, h'⟩).uniqueId,
          StoredEntity.target (M'.targets.get ⟨i, h'⟩)) ∈ st.storeMap ∧
        b ≤ (M'.targets.get ⟨i, h'⟩).uniqueId

/-- A source node has been faithfully cloned into the state: some clone
identifier `cid` (allocated at or after `b`) is recorded for it in the
Translation Table, the Clone Store resolves `cid` to a node clone carrying
`cid` as its identifier, and the morph-target obligations hold. -/
def NodeRecorded (st : PassState) (b : Nat) (d0 : NodeData) : Prop :=
  ∃ cid d', b ≤ cid ∧ cid < st.fresh ∧
    (d0.uniqueId, cid) ∈ st.convertionMap ∧
    List.lookup cid st.storeMap = some (.node d') ∧
    d'.uniqueId = cid ∧
    morphCloneOk st b d0 d'

/-- One store entry evolved by the skeleton block: node entries may have had
their `skeleton` field overwritten (any number of times); morph-target
entries are untouched. -/
def entrySkelMod : StoredEntity → StoredEntity → Prop
  | .node d, e => e = .node d ∨ ∃ sk, e = .node { d with skeleton := some sk }
  | .target t, e => e = .target t

/-- The Clone Store evolved by the skeleton block: the key set is unchanged
and each entry evolved by `entrySkelMod`. -/
def storeSkelMod (s s' : List (Nat × StoredEntity)) : Prop :=
  ∀ k, (List.lookup k s = none → List.lookup k s' = none) ∧
    ∀ e, List.lookup k s = some e →
      ∃ e', List.lookup k s' = some e' ∧ entrySkelMod e e'

/-- The guard of the skeleton block's mesh loop: `m.skeleton === s` and
`!m.isAnInstance`. -/
def meshMatches (s : Skeleton) (m : NodeData) : Prop :=
  m.skeleton = some s.uniqueId ∧ m.isAnInstance = false

instance (s : Skeleton) (m : NodeData) : Decidable (meshMatches s m) := by
  unfold meshMatches
  infer_instance

/-! ## Concrete sample containers (used to instantiate the theorems) -/

/-- A childless hierarchy entry. -/
def mkLeaf (id : Nat) (par : Option Nat) (mesh : Bool) (skel : Option Nat) :
    HNode :=
  .mk { uniqueId := id, parent := par, isMesh := mesh,
        morphTargetManager := none, skeleton := skel,
        isAnInstance := false } []

/-- One parentless transform node (id 1) with two mesh children (ids 2, 3);
the flat mesh array lists the two parented children. -/
def sampleHierarchy : AssetContainer :=
  { transformNodes := [.mk { uniqueId := 1, parent := none, isMesh := false,
                             morphTargetManager := none, skeleton := none,
                             isAnInstance := false }
                           [mkLeaf 2 (some 1) true none,
                            mkLeaf 3 (some 1) true none]],
    meshes := [mkLeaf 2 (some 1) true none, mkLeaf 3 (some 1) true none],
    skeletons := [], animationGroups := [] }

/-- One parentless mesh (id 1) bound to skeleton 10, whose bones link to
node 99 (outside the container) and node 1 (inside); one animation group
targeting 1 (inside) and 99 (outside). -/
def sampleSkeleton : AssetContainer :=
  { transformNodes := [],
    meshes := [mkLeaf 1 none true (some 10)],
    skeletons := [{ uniqueId := 10, name := "s", overrideMesh := none,
                    bones := [⟨some 99⟩, ⟨some 1⟩] }],
    animationGroups := [{ name := "g", targets := [1, 99] }] }

/-- One parentless mesh (id 1) with a two-target morph-target manager
(target ids 50 and 51). -/
def sampleMorph : AssetContainer :=
  { transformNodes := [],
    meshes := [.mk { uniqueId := 1, parent := none, isMesh := true,
                     morphTargetManager := some ⟨[⟨50⟩, ⟨51⟩]⟩,
                     skeleton := none, isAnInstance := false } []],
    skeletons := [], animationGroups := [] }

/-- One parentless mesh (id 1, bound to no skeleton) and two skeletons:
skeleton 10's override mesh is the captured mesh 1, skeleton 11's override
mesh is node 77, outside the container.  Neither skeleton has bound
meshes. -/
def sampleOverride : AssetContainer :=
  { transformNodes := [],
    meshes := [mkLeaf 1 none true none],
    skeletons := [{ uniqueId := 10, name := "a", overrideMesh := some 1,
                    bones := [] },
                  { uniqueId := 11, name := "b", overrideMesh := some 77,
                    bones := [] }],
    animationGroups := [] }

/-- Two parentless meshes (ids 1 and 2) both bound to skeleton 10, whose
single bone links to node 1. -/
def sampleTwoMeshes : AssetContainer :=
  { transformNodes := [],
    meshes := [mkLeaf 1 none true (some 10), mkLeaf 2 none true (some 10)],
    skeletons := [{ uniqueId := 10, name := "s", overrideMesh := none,
                    bones := [⟨some 1⟩] }],
    animationGroups := [] }

/-- A container on which the pass throws: its only mesh (id 5) has a parent
(node 77, outside the container), so it is never hierarchy-cloned, yet it is
bound, as a non-instance, to the container's skeleton 10 — the skeleton
block then reads `storeMap[convertionMap[5]]` (`undefined`) and the
property assignment throws a `TypeError`. -/
def sampleThrow : AssetContainer :=
  { transformNodes := [],
    meshes := [.mk { uniqueId := 5, parent := some 77, isMesh := true,
                     morphTargetManager := none, skeleton := some 10,
                     isAnInstance := false } []],
    skeletons := [{ uniqueId := 10, name := "sk", overrideMesh := none,
                    bones := [] }],
    animationGroups := [] }

/-- A scene whose camera array already holds objects 1 and 2 (all other
collections empty, no environment texture). -/
def sampleScene : Scene :=
  { cameras := [1, 2], lights := [], meshes := [], skeletons := [],
    animations := [], animationGroups := [], multiMaterials := [],
    materials := [], morphTargetManagers := [], geometries := [],
    transformNodes := [], actionManagers := [], textures := [],
    reflectionProbes := [], environmentTexture := none }

/-- Container assets holding the same two cameras in the opposite order. -/
def sampleAssets : ContainerAssets :=
  { cameras := [2, 1], lights := [], meshes := [], skeletons := [],
    animations := [], animationGroups := [], multiMaterials := [],
    materials := [], morphTargetManagers := [], geometries := [],
    transformNodes := [], actionManagers := [], textures := [],
    reflectionProbes := [], environmentTexture := none }

/-- A scene with an environment texture and some meshes. -/
def sampleScene2 : Scene :=
  { cameras := [], lights := [], meshes := [4, 5], skeletons := [],
    animations := [], animationGroups := [], multiMaterials := [],
    materials := [], morphTargetManagers := [], geometries := [],
    transformNodes := [], actionManagers := [], textures := [],
    reflectionProbes := [], environmentTexture := some 9 }

/-- Container assets disjoint from `sampleScene2`, without an environment
texture. -/
def sampleAssets2 : ContainerAssets :=
  { cameras := [3], lights := [], meshes := [6], skeletons := [],
    animations := [], animationGroups := [], multiMaterials := [],
    materials := [], morphTargetManagers := [], geometries := [],
    transformNodes := [], actionManagers := [], textures := [],
    reflectionProbes := [], environmentTexture := none }

/-- The Translation-Table entries added by the morph-target registration
loop, in loop order. -/
def targetConvPairs (os ns : List MorphTarget) : List (Nat × Nat) :=
  List.zipWith (fun o n => (o.uniqueId, n.uniqueId)) os ns

/-- The Clone-Store entries added by the morph-target registration loop, in
loop order. -/
def targetStoreEntries (os ns : List MorphTarget) : List (Nat × StoredEntity) :=
  List.zipWith (fun _ n => (n.uniqueId, StoredEntity.target n)) os ns

/-! ## Association-list lemmas -/

theorem lookup_mem {β : Type} {l : List (Nat × β)} {k : Nat} {v : β}
    (h : List.lookup k l = some v) : (k, v) ∈ l := by
  induction l with
  | nil => simp [List.lookup] at h
  | cons p l ih =>
    obtain ⟨a, b⟩ := p
    by_cases hk : k = a
    · subst hk
      rw [List.lookup_cons] at h
      simp only [beq_self_eq_true] at h
      cases h
      exact List.mem_cons_self _ _
    · rw [List.lookup_cons] at h
      simp only [beq_false_of_ne hk] at h
      exact List.mem_cons_of_mem _ (ih h)

theorem mem_lookup_isSome {β : Type} {l : List (Nat × β)} {k : Nat} {v : β}
    (h : (k, v) ∈ l) : (List.lookup k l).isSome = true := by
  induction l with
  | nil => simp at h
  | cons p l ih =>
    obtain ⟨a, b⟩ := p
    by_cases hk : k = a
    · subst hk
      rw [List.lookup_cons]
      simp only [beq_self_eq_true]
      rfl
    · rcases List.mem_cons.mp h with h1 | h2
      · cases h1; simp at hk
      · rw [List.lookup_cons]
        simp only [beq_false_of_ne hk]
        exact ih h2

theorem lookup_append_some {β : Type} {l1 l2 : List (Nat × β)} {k : Nat} {v : β}
    (h : List.lookup k l1 = some v) : List.lookup k (l1 ++ l2) = some v := by
  induction l1 with
  | nil => simp [List.lookup] at h
  | cons p l ih =>
    obtain ⟨a, b⟩ := p
    rw [List.cons_append, List.lookup_cons]
    rw [List.lookup_cons] at h
    by_cases hk : k = a
    · subst hk
      simpa using h
    · simp only [beq_false_of_ne hk] at h ⊢
      exact ih h

theorem lookup_append_none {β : Type} {l1 l2 : List (Nat × β)} {k : Nat}
    (h : List.lookup k l1 = none) :
    List.lookup k (l1 ++ l2) = List.lookup k l2 := by
  induction l1 with
  | nil => simp
  | cons p l ih =>
    obtain ⟨a, b⟩ := p
    rw [List.lookup_cons] at h
    rw [List.cons_append, List.lookup_cons]
    by_cases hk : k = a
    · subst hk; simp at h
    · simp only [beq_false_of_ne hk] at h ⊢
      exact ih h

theorem lookup_eq_none_of_keys {β : Type} {l : List (Nat × β)} {k : Nat}
    (h : ∀ p ∈ l, p.1 ≠ k) : List.lookup k l = none := by
  induction l with
  | nil => simp
  | cons p l ih =>
    obtain ⟨a, b⟩ := p
    have ha : a ≠ k := h (a, b) (List.mem_cons_self _ _)
    rw [List.lookup_cons]
    simp only [beq_false_of_ne (Ne.symm ha)]
    exact ih fun q hq => h q (List.mem_cons_of_mem _ hq)

theorem lookup_isSome_append {β : Type} {l1 l2 : List (Nat × β)} {k : Nat}
    (h : (List.lookup k l2).isSome = true) :
    (List.lookup k (l1 ++ l2)).isSome = true := by
  cases hl : List.lookup k l1 with
  | some v => rw [lookup_append_some hl]; rfl
  | none => rw [lookup_append_none hl]; exact h

theorem lookup_some_of_mem {β : Type} {l : List (Nat × β)} {k : Nat} {v : β}
    (h : (k, v) ∈ l) : ∃ w, List.lookup k l = some w := by
  have := mem_lookup_isSome h
  cases hl : List.lookup k l with
  | some w => exact ⟨w, rfl⟩
  | none => rw [hl] at this; simp at this

/-! ## Closed forms of the morph-target helpers -/

theorem cloneTargets_eq (st : PassState) (ts : List MorphTarget) :
    cloneTargets st ts =
      ({ st with fresh := st.fresh + ts.length },
        (List.range' st.fresh ts.length).map fun i => ⟨i⟩) := by
  induction ts generalizing st with
  | nil => simp [cloneTargets, List.range']
  | cons t ts ih =>
    simp only [cloneTargets, ih, List.length_cons, List.range'_succ, List.map_cons]
    rw [show st.fresh + 1 + ts.length = st.fresh + (ts.length + 1) by omega]

theorem registerTargets_eq (st : PassState) (os ns : List MorphTarget) :
    registerTargets st os ns =
      { st with
        convertionMap := (targetConvPairs os ns).reverse ++ st.convertionMap,
        storeMap := (targetStoreEntries os ns).reverse ++ st.storeMap } := by
  induction os generalizing ns st with
  | nil => cases ns <;> simp [registerTargets, targetConvPairs, targetStoreEntries]
  | cons o os ih =>
    cases ns with
    | nil => simp [registerTargets, targetConvPairs, targetStoreEntries]
    | cons n ns =>
      simp only [registerTargets, ih, targetConvPairs, targetStoreEntries,
        List.zipWith_cons_cons, List.reverse_cons]
      simp [List.append_assoc]

/-! ## Step-evolution lemmas -/

theorem StepAdds_rfl (st : PassState) : StepAdds st st := by
  refine ⟨Nat.le_refl _, [], [], by simp, by simp, by simp, by simp, by simp,
    by simp⟩

theorem StepAdds_trans {s1 s2 s3 : PassState} (h12 : StepAdds s1 s2)
    (h23 : StepAdds s2 s3) : StepAdds s1 s3 := by
  obtain ⟨hf12, dc1, ds1, hc1, hs1, hbc1, hbs1, hnd1, hlk1⟩ := h12
  obtain ⟨hf23, dc2, ds2, hc2, hs2, hbc2, hbs2, hnd2, hlk2⟩ := h23
  refine ⟨Nat.le_trans hf12 hf23, dc2 ++ dc1, ds2 ++ ds1, ?_, ?_, ?_, ?_, ?_, ?_⟩
  · rw [hc2, hc1, List.append_assoc]
  · rw [hs2, hs1, List.append_assoc]
  · intro p hp
    rcases List.mem_append.mp hp with h | h
    · have := hbc2 p h
      exact ⟨Nat.le_trans hf12 this.1, this.2⟩
    · have := hbc1 p h
      exact ⟨this.1, Nat.lt_of_lt_of_le this.2 hf23⟩
  · intro p hp
    rcases List.mem_append.mp hp with h | h
    · have := hbs2 p h
      exact ⟨Nat.le_trans hf12 this.1, this.2⟩
    · have := hbs1 p h
      exact ⟨this.1, Nat.lt_of_lt_of_le this.2 hf23⟩
  · rw [List.map_append]
    refine List.Nodup.append hnd2 hnd1 ?_
    intro a ha2 ha1
    obtain ⟨p, hp, hpa⟩ := List.mem_map.mp ha2
    obtain ⟨q, hq, hqa⟩ := List.mem_map.mp ha1
    have h2 := hbc2 p hp
    have h1 := hbc1 q hq
    omega
  · intro p hp
    rcases List.mem_append.mp hp with h | h
    · exact hlk2 p h
    · rw [hs2]
      exact lookup_isSome_append (hlk1 p h)

theorem StepAdds_store_lookup {s1 s2 : PassState} (h : StepAdds s1 s2) {k : Nat}
    (hk : k < s1.fresh) : List.lookup k s2.storeMap = List.lookup k s1.storeMap := by
  obtain ⟨hf, dc, ds, hc, hs, hbc, hbs, hnd, hlk⟩ := h
  rw [hs]
  apply lookup_append_none
  apply lookup_eq_none_of_keys
  intro p hp
  have := hbs p hp
  omega

theorem StepAdds_conv_mem {s1 s2 : PassState} (h : StepAdds s1 s2)
    {p : Nat × Nat} (hp : p ∈ s1.convertionMap) : p ∈ s2.convertionMap := by
  obtain ⟨hf, dc, ds, hc, hs, _⟩ := h
  rw [hc]
  exact List.mem_append_right _ hp

theorem StepAdds_store_mem {s1 s2 : PassState} (h : StepAdds s1 s2)
    {p : Nat × StoredEntity} (hp : p ∈ s1.storeMap) : p ∈ s2.storeMap := by
  obtain ⟨hf, dc, ds, hc, hs, _⟩ := h
  rw [hs]
  exact List.mem_append_right _ hp

/-! ## Lemmas on the registration pair lists -/

theorem targetConvPairs_snd {os ns : List MorphTarget} {p : Nat × Nat}
    (hp : p ∈ targetConvPairs os ns) : p.2 ∈ ns.map MorphTarget.uniqueId := by
  induction os generalizing ns with
  | nil => simp [targetConvPairs] at hp
  | cons o os ih =>
    cases ns with
    | nil => simp [targetConvPairs] at hp
    | cons n ns =>
      simp only [targetConvPairs, List.zipWith_cons_cons] at hp
      rcases List.mem_cons.mp hp with h | h
      · subst h; simp
      · exact List.mem_cons_of_mem _ (ih h)

theorem targetStoreEntries_key {os ns : List MorphTarget}
    {q : Nat × StoredEntity} (hq : q ∈ targetStoreEntries os ns) :
    q.1 ∈ ns.map MorphTarget.uniqueId := by
  induction os generalizing ns with
  | nil => simp [targetStoreEntries] at hq
  | cons o os ih =>
    cases ns with
    | nil => simp [targetStoreEntries] at hq
    | cons n ns =>
      simp only [targetStoreEntries, List.zipWith_cons_cons] at hq
      rcases List.mem_cons.mp hq with h | h
      · subst h; simp
      · exact List.mem_cons_of_mem _ (ih h)

theorem targetConvPairs_mem_store {os ns : List MorphTarget} {p : Nat × Nat}
    (hp : p ∈ targetConvPairs os ns) :
    ∃ n, p.2 = n.uniqueId ∧
      (n.uniqueId, StoredEntity.target n) ∈ targetStoreEntries os ns := by
  induction os generalizing ns with
  | nil => simp [targetConvPairs] at hp
  | cons o os ih =>
    cases ns with
    | nil => simp [targetConvPairs] at hp
    | cons n ns =>
      simp only [targetConvPairs, List.zipWith_cons_cons] at hp
      rcases List.mem_cons.mp hp with h | h
      · subst h
        exact ⟨n, rfl, by simp [targetStoreEntries]⟩
      · obtain ⟨m, hm1, hm2⟩ := ih h
        exact ⟨m, hm1, by
          simp only [targetStoreEntries, List.zipWith_cons_cons]
          exact List.mem_cons_of_mem _ hm2⟩

theorem targetConvPairs_get {os ns : List MorphTarget} (i : Nat)
    (h : i < os.length) (h' : i < ns.length) :
    ((os.get ⟨i, h⟩).uniqueId, (ns.get ⟨i, h'⟩).uniqueId) ∈
      targetConvPairs os ns := by
  induction os generalizing ns i with
  | nil => simp at h
  | cons o os ih =>
    cases ns with
    | nil => simp at h'
    | cons n ns =>
      cases i with
      | zero => simp [targetConvPairs]
      | succ j =>
        simp only [targetConvPairs, List.zipWith_cons_cons, List.get_cons_succ]
        exact List.mem_cons_of_mem _
          (ih j (Nat.lt_of_succ_lt_succ h) (Nat.lt_of_succ_lt_succ h'))

theorem targetStoreEntries_get {os ns : List MorphTarget} (i : Nat)
    (h : i < os.length) (h' : i < ns.length) :
    ((ns.get ⟨i, h'⟩).uniqueId, StoredEntity.target (ns.get ⟨i, h'⟩)) ∈
      targetStoreEntries os ns := by
  induction os generalizing ns i with
  | nil => simp at h
  | cons o os ih =>
    cases ns with
    | nil => simp at h'
    | cons n ns =>
      cases i with
      | zero => simp [targetStoreEntries]
      | succ j =>
        simp only [targetStoreEntries, List.zipWith_cons_cons, List.get_cons_succ]
        exact List.mem_cons_of_mem _
          (ih j (Nat.lt_of_succ_lt_succ h) (Nat.lt_of_succ_lt_succ h'))

theorem targetConvPairs_snd_eq {os ns : List MorphTarget}
    (h : os.length = ns.length) :
    (targetConvPairs os ns).map Prod.snd = ns.map MorphTarget.uniqueId := by
  induction os generalizing ns with
  | nil =>
    cases ns with
    | nil => simp [targetConvPairs]
    | cons n ns => simp at h
  | cons o os ih =>
    cases ns with
    | nil => simp at h
    | cons n ns =>
      have h' : os.length = ns.length := by simpa using h
      simp only [targetConvPairs, List.zipWith_cons_cons, List.map_cons]
      exact congrArg (List.cons n.uniqueId) (ih h')

/-! ## The `onClone` callback: case equations and consequences -/

theorem runOnClone_eq_plain (d raw : NodeData) (st : PassState)
    (h : raw.isMesh = false ∨ d.morphTargetManager = none) :
    runOnClone d raw st =
      ({ st with
          convertionMap := (d.uniqueId, raw.uniqueId) :: st.convertionMap,
          storeMap := (raw.uniqueId, .node raw) :: st.storeMap }, raw) := by
  rcases h with h | h
  · simp [runOnClone, h]
  · cases hm : raw.isMesh <;> simp [runOnClone, hm, h]

theorem runOnClone_eq_mgr (d raw : NodeData) (st : PassState)
    (M : MorphTargetManager) (ns : List MorphTarget) (hm : raw.isMesh = true)
    (hM : d.morphTargetManager = some M)
    (hns : ns = (List.range' st.fresh M.targets.length).map fun i => ⟨i⟩) :
    runOnClone d raw st =
      ({ fresh := st.fresh + M.targets.length,
         convertionMap := (targetConvPairs M.targets ns).reverse ++
           (d.uniqueId, raw.uniqueId) :: st.convertionMap,
         storeMap := (targetStoreEntries M.targets ns).reverse ++
           (raw.uniqueId,
             StoredEntity.node { raw with morphTargetManager := some ⟨ns⟩ }) ::
           st.storeMap },
       { raw with morphTargetManager := some ⟨ns⟩ }) := by
  subst hns
  simp [runOnClone, hm, hM, cloneTargets_eq, registerTargets_eq]

theorem runOnClone_clone_fields (d raw : NodeData) (st : PassState) :
    (runOnClone d raw st).2.uniqueId = raw.uniqueId ∧
    (runOnClone d raw st).2.parent = raw.parent ∧
    (runOnClone d raw st).2.isMesh = raw.isMesh ∧
    (runOnClone d raw st).2.skeleton = raw.skeleton ∧
    (runOnClone d raw st).2.isAnInstance = raw.isAnInstance := by
  cases hm : raw.isMesh <;> cases hM : d.morphTargetManager <;>
    simp [runOnClone, hm, hM]

theorem runOnClone_step (d raw : NodeData) (st : PassState)
    (hid : raw.uniqueId = st.fresh) :
    StepAdds st (runOnClone d raw { st with fresh := st.fresh + 1 }).1 := by
  by_cases hplain : raw.isMesh = false ∨ d.morphTargetManager = none
  · rw [runOnClone_eq_plain d raw _ hplain]
    refine ⟨by simp, [(d.uniqueId, raw.uniqueId)], [(raw.uniqueId, .node raw)],
      by simp, by simp, ?_, ?_, by simp, ?_⟩
    · intro p hp
      rcases List.mem_cons.mp hp with h | h
      · subst h; simp; omega
      · simp at h
    · intro p hp
      rcases List.mem_cons.mp hp with h | h
      · subst h; simp; omega
      · simp at h
    · intro p hp
      rcases List.mem_cons.mp hp with h | h
      · subst h
        simp only [hid]
        rw [List.lookup_cons]
        simp
      · simp at h
  · push_neg at hplain
    obtain ⟨hm, hM⟩ := hplain
    have hm' : raw.isMesh = true := by
      cases hraw : raw.isMesh
      · exact absurd hraw hm
      · rfl
    obtain ⟨M, hMs⟩ := Option.ne_none_iff_exists'.mp hM
    rw [runOnClone_eq_mgr d raw _ M _ hm' hMs rfl]
    set ns : List MorphTarget :=
      (List.range' (st.fresh + 1) M.targets.length).map fun i => ⟨i⟩ with hns
    have hnsids : ns.map MorphTarget.uniqueId =
        List.range' (st.fresh + 1) M.targets.length := by
      rw [hns, List.map_map]
      exact List.map_id _
    have hnslen : ns.length = M.targets.length := by simp [hns]
    refine ⟨by simp; omega,
      (targetConvPairs M.targets ns).reverse ++ [(d.uniqueId, raw.uniqueId)],
      (targetStoreEntries M.targets ns).reverse ++
        [(raw.uniqueId,
          StoredEntity.node { raw with morphTargetManager := some ⟨ns⟩ })],
      by simp, by simp, ?_, ?_, ?_, ?_⟩
    · intro p hp
      rcases List.mem_append.mp hp with h | h
      · have h2 := targetConvPairs_snd (List.mem_reverse.mp h)
        rw [hnsids] at h2
        have := List.mem_range'_1.mp h2
        simp
        omega
      · rcases List.mem_cons.mp h with h1 | h1
        · subst h1; simp; omega
        · simp at h1
    · intro p hp
      rcases List.mem_append.mp hp with h | h
      · have h2 := targetStoreEntries_key (List.mem_reverse.mp h)
        rw [hnsids] at h2
        have := List.mem_range'_1.mp h2
        simp
        omega
      · rcases List.mem_cons.mp h with h1 | h1
        · subst h1; simp; omega
        · simp at h1
    · rw [List.map_append, List.map_reverse,
        targetConvPairs_snd_eq (by omega : M.targets.length = ns.length), hnsids]
      refine List.Nodup.append (by simp [List.nodup_range']) (by simp) ?_
      intro a ha1 ha2
      have := List.mem_range'_1.mp (List.mem_reverse.mp ha1)
      simp at ha2
      omega
    · intro p hp
      rcases List.mem_append.mp hp with h | h
      · obtain ⟨n, hn1, hn2⟩ := targetConvPairs_mem_store (List.mem_reverse.mp h)
        rw [hn1]
        apply mem_lookup_isSome
        exact List.mem_append_left _ (List.mem_reverse.mpr hn2)
      · rcases List.mem_cons.mp h with h1 | h1
        · subst h1
          apply mem_lookup_isSome
          apply List.mem_append_right
          exact List.mem_cons_self _ _
        · simp at h1

theorem NodeRecorded_step {s1 s2 : PassState} {b : Nat} {d0 : NodeData}
    (h : StepAdds s1 s2) (hr : NodeRecorded s1 b d0) : NodeRecorded s2 b d0 := by
  obtain ⟨cid, d', hb, hlt, hconv, hstore, huid, hmorph⟩ := hr
  refine ⟨cid, d', hb, Nat.lt_of_lt_of_le hlt h.1, StepAdds_conv_mem h hconv, ?_,
    huid, ?_⟩
  · rw [StepAdds_store_lookup h hlt]
    exact hstore
  · intro M hm hM
    obtain ⟨M', hM', hlen, hidx⟩ := hmorph M hm hM
    refine ⟨M', hM', hlen, fun i hi hi' => ?_⟩
    obtain ⟨h1, h2, h3⟩ := hidx i hi hi'
    exact ⟨StepAdds_conv_mem h h1, StepAdds_store_mem h h2, h3⟩

theorem runOnClone_node_recorded (d raw : NodeData) (st : PassState) {b : Nat}
    (hid : raw.uniqueId + 1 = st.fresh) (hb : b ≤ raw.uniqueId)
    (hmesh : raw.isMesh = d.isMesh) :
    NodeRecorded (runOnClone d raw st).1 b d := by
  by_cases hplain : raw.isMesh = false ∨ d.morphTargetManager = none
  · rw [runOnClone_eq_plain d raw _ hplain]
    refine ⟨raw.uniqueId, raw, hb, by simp; omega, List.mem_cons_self _ _, ?_,
      rfl, ?_⟩
    · rw [List.lookup_cons]
      simp
    · intro M hm hM
      rcases hplain with h | h
      · rw [hmesh] at h
        rw [hm] at h
        simp at h
      · rw [hM] at h
        simp at h
  · push_neg at hplain
    obtain ⟨hm, hM⟩ := hplain
    have hm' : raw.isMesh = true := by
      cases hraw : raw.isMesh
      · exact absurd hraw hm
      · rfl
    obtain ⟨M, hMs⟩ := Option.ne_none_iff_exists'.mp hM
    rw [runOnClone_eq_mgr d raw _ M _ hm' hMs rfl]
    set ns : List MorphTarget :=
      (List.range' st.fresh M.targets.length).map fun i => ⟨i⟩ with hns
    have hnsids : ns.map MorphTarget.uniqueId =
        List.range' st.fresh M.targets.length := by
      rw [hns, List.map_map]
      exact List.map_id _
    have hnslen : ns.length = M.targets.length := by simp [hns]
    refine ⟨raw.uniqueId, { raw with morphTargetManager := some ⟨ns⟩ }, hb,
      by simp; omega, ?_, ?_, rfl, ?_⟩
    · apply List.mem_append_right
      exact List.mem_cons_self _ _
    · rw [lookup_append_none, List.lookup_cons]
      · simp
      · apply lookup_eq_none_of_keys
        intro p hp
        have h2 := targetStoreEntries_key (List.mem_reverse.mp hp)
        rw [hnsids] at h2
        have := List.mem_range'_1.mp h2
        omega
    · intro M0 hm0 hM0
      rw [hM0] at hMs
      cases hMs
      refine ⟨⟨ns⟩, rfl, by simpa using hnslen, fun i hi hi' => ?_⟩
      have hi2 : i < ns.length := by simpa using hi'
      refine ⟨?_, ?_, ?_⟩
      · apply List.mem_append_left
        apply List.mem_reverse.mpr
        have := @targetConvPairs_get M.targets ns i hi hi2
        simpa using this
      · apply List.mem_append_left
        apply List.mem_reverse.mpr
        have := @targetStoreEntries_get M.targets ns i hi hi2
        simpa using this
      · have : (ns.get ⟨i, hi2⟩).uniqueId = st.fresh + i := by
          simp [hns, List.get_map, List.get_range']
        simp only [this]
        omega

theorem runOnClone_fresh_le (d raw : NodeData) (st : PassState) :
    st.fresh ≤ (runOnClone d raw st).1.fresh := by
  by_cases hplain : raw.isMesh = false ∨ d.morphTargetManager = none
  · rw [runOnClone_eq_plain d raw st hplain]
  · push_neg at hplain
    obtain ⟨hm, hM⟩ := hplain
    have hm' : raw.isMesh = true := by
      cases hraw : raw.isMesh
      · exact absurd hraw hm
      · rfl
    obtain ⟨M, hMs⟩ := Option.ne_none_iff_exists'.mp hM
    rw [runOnClone_eq_mgr d raw st M _ hm' hMs rfl]
    simp

mutual
theorem instantiateNode_step (p : Option Nat) (st : PassState) (n : HNode) :
    StepAdds st (instantiateNode p st n).1 ∧
    (instantiateNode p st n).2 = st.fresh ∧
    st.fresh < (instantiateNode p st n).1.fresh := by
  cases n with
  | mk d cs =>
    simp only [instantiateNode]
    have h1 := runOnClone_step d { d with uniqueId := st.fresh, parent := p, isAnInstance := false } st rfl
    have h2 := instantiateForest_step st.fresh (runOnClone d { d with uniqueId := st.fresh, parent := p, isAnInstance := false } { st with fresh := st.fresh + 1 }).1 cs
    have h3 := runOnClone_fresh_le d { d with uniqueId := st.fresh, parent := p, isAnInstance := false } { st with fresh := st.fresh + 1 }
    simp only at h3
    refine ⟨StepAdds_trans h1 h2, by trivial, ?_⟩
    have h4 := h2.1
    omega

theorem instantiateForest_step (pid : Nat) (st : PassState) (l : List HNode) :
    StepAdds st (instantiateForest pid st l) := by
  cases l with
  | nil =>
    unfold instantiateForest
    exact StepAdds_rfl st
  | cons c cs =>
    unfold instantiateForest
    exact StepAdds_trans (instantiateNode_step (some pid) st c).1
      (instantiateForest_step pid (instantiateNode (some pid) st c).1 cs)
end

mutual
theorem instantiateNode_recorded (p : Option Nat) (st : PassState) (n : HNode)
    (b : Nat) (hb : b ≤ st.fresh) :
    ∀ d0 ∈ treeNodes n, NodeRecorded (instantiateNode p st n).1 b d0 := by
  cases n with
  | mk d cs =>
    intro d0 hd0
    simp only [treeNodes] at hd0
    simp only [instantiateNode]
    rcases List.mem_cons.mp hd0 with h | h
    · subst h
      have hrec := runOnClone_node_recorded d0 { d0 with uniqueId := st.fresh, parent := p, isAnInstance := false } { st with fresh := st.fresh + 1 } rfl hb rfl
      exact NodeRecorded_step (instantiateForest_step st.fresh _ cs) hrec
    · have hle : b ≤ (runOnClone d { d with uniqueId := st.fresh, parent := p, isAnInstance := false } { st with fresh := st.fresh + 1 }).1.fresh := by
        have := runOnClone_fresh_le d { d with uniqueId := st.fresh, parent := p, isAnInstance := false } { st with fresh := st.fresh + 1 }
        simp only at this
        omega
      exact instantiateForest_recorded st.fresh _ cs b hle d0 h

theorem instantiateForest_recorded (pid : Nat) (st : PassState) (l : List HNode)
    (b : Nat) (hb : b ≤ st.fresh) :
    ∀ d0 ∈ forestNodes l, NodeRecorded (instantiateForest pid st l) b d0 := by
  cases l with
  | nil =>
    intro d0 h
    simp [forestNodes] at h
  | cons c cs =>
    intro d0 h
    unfold instantiateForest
    simp only [forestNodes] at h
    rcases List.mem_append.mp h with h | h
    · exact NodeRecorded_step (instantiateForest_step pid _ cs)
        (instantiateNode_recorded (some pid) st c b hb d0 h)
    · exact instantiateForest_recorded pid _ cs b
        (Nat.le_trans hb (instantiateNode_step (some pid) st c).1.1) d0 h
end

theorem runOnClone_store_self (d raw : NodeData) (st : PassState)
    (hid : raw.uniqueId + 1 = st.fresh) :
    List.lookup raw.uniqueId (runOnClone d raw st).1.storeMap =
      some (.node (runOnClone d raw st).2) := by
  by_cases hplain : raw.isMesh = false ∨ d.morphTargetManager = none
  · rw [runOnClone_eq_plain d raw st hplain]
    rw [List.lookup_cons]
    simp
  · push_neg at hplain
    obtain ⟨hm, hM⟩ := hplain
    have hm' : raw.isMesh = true := by
      cases hraw : raw.isMesh
      · exact absurd hraw hm
      · rfl
    obtain ⟨M, hMs⟩ := Option.ne_none_iff_exists'.mp hM
    rw [runOnClone_eq_mgr d raw st M _ hm' hMs rfl]
    rw [lookup_append_none, List.lookup_cons]
    · simp
    · apply lookup_eq_none_of_keys
      intro p hp
      have h2 := targetStoreEntries_key (List.mem_reverse.mp hp)
      rw [List.map_map] at h2
      have h3 : p.1 ∈ List.range' st.fresh M.targets.length := by
        simpa using h2
      have := List.mem_range'_1.mp h3
      omega

theorem instantiateNode_root_store (p : Option Nat) (st : PassState) (n : HNode) :
    ∃ d', List.lookup (instantiateNode p st n).2
        (instantiateNode p st n).1.storeMap = some (.node d') ∧
      d'.parent = p ∧ d'.uniqueId = st.fresh := by
  cases n with
  | mk d cs =>
    simp only [instantiateNode]
    have hself := runOnClone_store_self d { d with uniqueId := st.fresh, parent := p, isAnInstance := false } { st with fresh := st.fresh + 1 } rfl
    have hfields := runOnClone_clone_fields d { d with uniqueId := st.fresh, parent := p, isAnInstance := false } { st with fresh := st.fresh + 1 }
    have hfl := runOnClone_fresh_le d { d with uniqueId := st.fresh, parent := p, isAnInstance := false } { st with fresh := st.fresh + 1 }
    simp only at hfl
    refine ⟨(runOnClone d { d with uniqueId := st.fresh, parent := p, isAnInstance := false } { st with fresh := st.fresh + 1 }).2, ?_, ?_, ?_⟩
    · rw [StepAdds_store_lookup (instantiateForest_step st.fresh _ cs) (by omega)]
      exact hself
    · exact hfields.2.1
    · exact hfields.1

theorem instantiateRootList_step (st : PassState) (l : List HNode) :
    StepAdds st (instantiateRootList st l).1 := by
  induction l generalizing st with
  | nil => exact StepAdds_rfl st
  | cons o os ih =>
    by_cases hc : o.data.parent = none
    · simp only [instantiateRootList, hc, if_true]
      exact StepAdds_trans (instantiateNode_step none st o).1
        (ih (instantiateNode none st o).1)
    · simp only [instantiateRootList, hc, if_false]
      exact ih st

theorem instantiateRootList_length (st : PassState) (l : List HNode) :
    (instantiateRootList st l).2.length =
      (l.filter fun o => o.data.parent = none).length := by
  induction l generalizing st with
  | nil => simp [instantiateRootList]
  | cons o os ih =>
    by_cases hc : o.data.parent = none
    · simp only [instantiateRootList, hc, if_true, List.filter_cons,
        decide_eq_true_eq]
      simp only [List.length_cons, if_true, hc]
      exact congrArg (fun x => x + 1) (ih _)
    · simp only [instantiateRootList, hc, if_false, List.filter_cons]
      rw [if_neg (by simp [hc])]
      exact ih st

theorem instantiateRootList_bounds (st : PassState) (l : List HNode) :
    ∀ r ∈ (instantiateRootList st l).2,
      st.fresh ≤ r ∧ r < (instantiateRootList st l).1.fresh := by
  induction l generalizing st with
  | nil => simp [instantiateRootList]
  | cons o os ih =>
    by_cases hc : o.data.parent = none
    · simp only [instantiateRootList, hc, if_true]
      intro r hr
      have hstep := instantiateNode_step none st o
      have hrest := instantiateRootList_step (instantiateNode none st o).1 os
      rcases List.mem_cons.mp hr with h | h
      · subst h
        refine ⟨Nat.le_of_eq hstep.2.1.symm, ?_⟩
        have := hstep.2.2
        have h2 := hrest.1
        rw [hstep.2.1]
        omega
      · have := ih (instantiateNode none st o).1 r h
        have h2 := hstep.1.1
        exact ⟨by omega, this.2⟩
    · simp only [instantiateRootList, hc, if_false]
      exact ih st

theorem instantiateRootList_sorted (st : PassState) (l : List HNode) :
    List.Pairwise (fun a b => a < b) (instantiateRootList st l).2 := by
  induction l generalizing st with
  | nil => simp [instantiateRootList]
  | cons o os ih =>
    by_cases hc : o.data.parent = none
    · simp only [instantiateRootList, hc, if_true]
      refine List.Pairwise.cons ?_ (ih (instantiateNode none st o).1)
      intro b hb
      have hstep := instantiateNode_step none st o
      have := instantiateRootList_bounds (instantiateNode none st o).1 os b hb
      rw [hstep.2.1]
      have := hstep.2.2
      omega
    · simp only [instantiateRootList, hc, if_false]
      exact ih st

theorem instantiateRootList_parent (st : PassState) (l : List HNode) :
    ∀ r ∈ (instantiateRootList st l).2,
      ∃ d', List.lookup r (instantiateRootList st l).1.storeMap =
          some (.node d') ∧ d'.parent = none ∧ d'.uniqueId = r := by
  induction l generalizing st with
  | nil => simp [instantiateRootList]
  | cons o os ih =>
    by_cases hc : o.data.parent = none
    · simp only [instantiateRootList, hc, if_true]
      intro r hr
      rcases List.mem_cons.mp hr with h | h
      · subst h
        obtain ⟨d', hd1, hd2, hd3⟩ := instantiateNode_root_store none st o
        have hstep := instantiateNode_step none st o
        refine ⟨d', ?_, hd2, by rw [hd3, hstep.2.1]⟩
        rw [StepAdds_store_lookup
          (instantiateRootList_step (instantiateNode none st o).1 os) ?_]
        · exact hd1
        · rw [hstep.2.1]
          exact hstep.2.2
      · exact ih (instantiateNode none st o).1 r h
    · simp only [instantiateRootList, hc, if_false]
      exact ih st

theorem instantiateRootList_recorded (st : PassState) (l : List HNode) (b : Nat)
    (hb : b ≤ st.fresh) :
    ∀ d0 ∈ forestNodes (l.filter fun o => o.data.parent = none),
      NodeRecorded (instantiateRootList st l).1 b d0 := by
  induction l generalizing st with
  | nil => simp [instantiateRootList, forestNodes]
  | cons o os ih =>
    by_cases hc : o.data.parent = none
    · simp only [instantiateRootList, hc, if_true]
      intro d0 hd0
      rw [List.filter_cons, if_pos (by simp [hc])] at hd0
      simp only [forestNodes] at hd0
      rcases List.mem_append.mp hd0 with h | h
      · exact NodeRecorded_step
          (instantiateRootList_step (instantiateNode none st o).1 os)
          (instantiateNode_recorded none st o b hb d0 h)
      · exact ih (instantiateNode none st o).1
          (Nat.le_trans hb (instantiateNode_step none st o).1.1) d0 h
    · simp only [instantiateRootList, hc, if_false]
      intro d0 hd0
      rw [List.filter_cons, if_neg (by simp [hc])] at hd0
      exact ih st hb d0 hd0

theorem runOnClone_fresh_weight (d raw : NodeData) (st : PassState)
    (hmesh : raw.isMesh = d.isMesh) :
    (runOnClone d raw st).1.fresh + 1 = st.fresh + nodeWeight d := by
  cases hm : d.isMesh with
  | false =>
    rw [runOnClone_eq_plain d raw st (Or.inl (hmesh.trans hm))]
    simp [nodeWeight, hm]
  | true =>
    cases hM : d.morphTargetManager with
    | none =>
      rw [runOnClone_eq_plain d raw st (Or.inr hM)]
      simp [nodeWeight, hm, hM]
    | some M =>
      rw [runOnClone_eq_mgr d raw st M _ (hmesh.trans hm) hM rfl]
      simp [nodeWeight, hm, hM]
      omega

mutual
theorem instantiateNode_fresh_weight (p : Option Nat) (st : PassState)
    (n : HNode) :
    (instantiateNode p st n).1.fresh = st.fresh + treeWeight n := by
  cases n with
  | mk d cs =>
    simp only [instantiateNode, treeWeight]
    rw [instantiateForest_fresh_weight]
    have := runOnClone_fresh_weight d { d with uniqueId := st.fresh, parent := p, isAnInstance := false } { st with fresh := st.fresh + 1 } rfl
    simp only at this
    omega

theorem instantiateForest_fresh_weight (pid : Nat) (st : PassState)
    (l : List HNode) :
    (instantiateForest pid st l).fresh = st.fresh + forestWeight l := by
  cases l with
  | nil => simp [instantiateForest, forestWeight]
  | cons c cs =>
    unfold instantiateForest
    simp only [forestWeight]
    rw [instantiateForest_fresh_weight, instantiateNode_fresh_weight]
    omega
end

theorem instantiateRootList_fresh (st : PassState) (l : List HNode) :
    (instantiateRootList st l).1.fresh = st.fresh + rootsWeight l := by
  induction l generalizing st with
  | nil => simp [instantiateRootList, rootsWeight, forestWeight]
  | cons o os ih =>
    by_cases hc : o.data.parent = none
    · simp only [instantiateRootList, hc, if_true]
      rw [ih]
      simp only [rootsWeight, List.filter_cons, if_pos (by simp [hc] : decide (o.data.parent = none) = true)]
      simp only [forestWeight]
      rw [instantiateNode_fresh_weight]
      omega
    · simp only [instantiateRootList, hc, if_false]
      rw [ih]
      simp only [rootsWeight, List.filter_cons, if_neg (by simp [hc] : ¬ decide (o.data.parent = none) = true)]

theorem skeletonMeshLoop_fresh (s : Skeleton) (st : PassState)
    (swapped : List Nat) (clone : Skeleton) (ms : List NodeData) :
    (skeletonMeshLoop s st swapped clone ms).1.fresh = st.fresh := by
  induction ms generalizing st swapped clone with
  | nil => simp [skeletonMeshLoop]
  | cons m ms ih =>
    by_cases hg : m.skeleton = some s.uniqueId ∧ m.isAnInstance = false
    · simp only [skeletonMeshLoop, if_pos hg]
      cases hl : lookupCloneId st m.uniqueId with
      | some copyId =>
        by_cases hw : clone.uniqueId ∈ swapped
        · simp only [if_pos hw]
          rw [ih]
        · simp only [if_neg hw]
          rw [ih]
      | none => exact ih st swapped clone
    · simp only [skeletonMeshLoop, if_neg hg]
      exact ih st swapped clone

theorem instantiateSkeletons_fresh (meshData : List NodeData) (st : PassState)
    (swapped : List Nat) (ss : List Skeleton) :
    (instantiateSkeletons meshData st swapped ss).1.fresh =
      st.fresh + ss.length := by
  induction ss generalizing st swapped with
  | nil => simp [instantiateSkeletons]
  | cons s ss ih =>
    simp only [instantiateSkeletons]
    rw [ih, skeletonMeshLoop_fresh]
    simp
    omega

/-! ## Skeleton-block lemmas -/

theorem lookup_map_value {β : Type} (g : Nat → β → β) (l : List (Nat × β))
    (k : Nat) :
    List.lookup k (l.map fun p => (p.1, g p.1 p.2)) =
      (List.lookup k l).map (g k) := by
  induction l with
  | nil => simp
  | cons p l ih =>
    obtain ⟨a, b⟩ := p
    rw [List.map_cons]
    by_cases hk : k = a
    · subst hk
      rw [List.lookup_cons, List.lookup_cons]
      simp
    · rw [List.lookup_cons, List.lookup_cons]
      simp only [beq_false_of_ne hk]
      exact ih

theorem lookup_setSkeleton (sm : List (Nat × StoredEntity)) (c sk k : Nat) :
    List.lookup k (setSkeletonInStore sm c sk) =
      (List.lookup k sm).map fun e =>
        if k = c then
          (match e with
           | .node d => StoredEntity.node { d with skeleton := some sk }
           | .target t => StoredEntity.target t)
        else e := by
  unfold setSkeletonInStore
  exact lookup_map_value ((fun a e => if a = c then (match e with | StoredEntity.node d => StoredEntity.node { d with skeleton := some sk } | StoredEntity.target t => StoredEntity.target t) else e) : Nat → StoredEntity → StoredEntity) sm k

theorem lookup_setSkeleton_ne {sm : List (Nat × StoredEntity)} {c sk k : Nat}
    (h : k ≠ c) :
    List.lookup k (setSkeletonInStore sm c sk) = List.lookup k sm := by
  rw [lookup_setSkeleton]
  cases List.lookup k sm <;> simp [h]

theorem lookup_setSkeleton_eq_node {sm : List (Nat × StoredEntity)}
    {c sk : Nat} {d : NodeData} (h : List.lookup c sm = some (.node d)) :
    List.lookup c (setSkeletonInStore sm c sk) =
      some (.node { d with skeleton := some sk }) := by
  rw [lookup_setSkeleton, h]
  simp

theorem entrySkelMod_rfl (e : StoredEntity) : entrySkelMod e e := by
  cases e with
  | node d => exact Or.inl rfl
  | target t => rfl

theorem entrySkelMod_trans {a b c : StoredEntity} (hab : entrySkelMod a b)
    (hbc : entrySkelMod b c) : entrySkelMod a c := by
  cases a with
  | node d =>
    rcases hab with h | ⟨sk, h⟩
    · subst h; exact hbc
    · subst h
      rcases hbc with h2 | ⟨sk2, h2⟩
      · subst h2; exact Or.inr ⟨sk, rfl⟩
      · subst h2; exact Or.inr ⟨sk2, rfl⟩
  | target t =>
    cases hab
    exact hbc

theorem storeSkelMod_rfl (s : List (Nat × StoredEntity)) : storeSkelMod s s := by
  intro k
  exact ⟨fun h => h, fun e he => ⟨e, he, entrySkelMod_rfl e⟩⟩

theorem storeSkelMod_trans {s1 s2 s3 : List (Nat × StoredEntity)}
    (h12 : storeSkelMod s1 s2) (h23 : storeSkelMod s2 s3) :
    storeSkelMod s1 s3 := by
  intro k
  refine ⟨fun h => (h23 k).1 ((h12 k).1 h), fun e he => ?_⟩
  obtain ⟨e2, he2, hm2⟩ := (h12 k).2 e he
  obtain ⟨e3, he3, hm3⟩ := (h23 k).2 e2 he2
  exact ⟨e3, he3, entrySkelMod_trans hm2 hm3⟩

theorem storeSkelMod_isSome {s s' : List (Nat × StoredEntity)}
    (h : storeSkelMod s s') (k : Nat) :
    (List.lookup k s').isSome = (List.lookup k s).isSome := by
  cases hl : List.lookup k s with
  | none => rw [(h k).1 hl]
  | some e =>
    obtain ⟨e', he', _⟩ := (h k).2 e hl
    rw [he']
    rfl

theorem setSkeleton_skelMod (sm : List (Nat × StoredEntity)) (c sk : Nat) :
    storeSkelMod sm (setSkeletonInStore sm c sk) := by
  intro k
  constructor
  · intro h
    rw [lookup_setSkeleton, h]
    rfl
  · intro e he
    rw [lookup_setSkeleton, he]
    by_cases hk : k = c
    · subst hk
      cases e with
      | node d =>
        exact ⟨StoredEntity.node { d with skeleton := some sk }, by simp,
          Or.inr ⟨sk, rfl⟩⟩
      | target t =>
        exact ⟨StoredEntity.target t, by simp, rfl⟩
    · exact ⟨e, by simp [hk], entrySkelMod_rfl e⟩

theorem lookupCloneId_eq_of {s s' : PassState}
    (hc : s'.convertionMap = s.convertionMap)
    (hs : ∀ k, (List.lookup k s'.storeMap).isSome =
      (List.lookup k s.storeMap).isSome) (id : Nat) :
    lookupCloneId s' id = lookupCloneId s id := by
  simp only [lookupCloneId, hc]
  cases List.lookup id s.convertionMap with
  | none => rfl
  | some cid =>
    have hcid := hs cid
    cases h1 : List.lookup cid s.storeMap <;>
      cases h2 : List.lookup cid s'.storeMap <;>
      simp [h1, h2] at hcid ⊢

theorem skeletonMeshLoop_conv (s : Skeleton) (st : PassState) (sw : List Nat)
    (cl : Skeleton) (ms : List NodeData) :
    (skeletonMeshLoop s st sw cl ms).1.convertionMap = st.convertionMap := by
  induction ms generalizing st sw cl with
  | nil => simp [skeletonMeshLoop]
  | cons m ms ih =>
    by_cases hg : m.skeleton = some s.uniqueId ∧ m.isAnInstance = false
    · simp only [skeletonMeshLoop, if_pos hg]
      cases hl : lookupCloneId st m.uniqueId with
      | some copyId =>
        by_cases hw : cl.uniqueId ∈ sw
        · simp only [if_pos hw]
          rw [ih]
        · simp only [if_neg hw]
          rw [ih]
      | none => exact ih st sw cl
    · simp only [skeletonMeshLoop, if_neg hg]
      exact ih st sw cl

theorem skeletonMeshLoop_skelMod (s : Skeleton) (st : PassState)
    (sw : List Nat) (cl : Skeleton) (ms : List NodeData) :
    storeSkelMod st.storeMap (skeletonMeshLoop s st sw cl ms).1.storeMap := by
  induction ms generalizing st sw cl with
  | nil => simp only [skeletonMeshLoop]; exact storeSkelMod_rfl _
  | cons m ms ih =>
    by_cases hg : m.skeleton = some s.uniqueId ∧ m.isAnInstance = false
    · simp only [skeletonMeshLoop, if_pos hg]
      cases hl : lookupCloneId st m.uniqueId with
      | some copyId =>
        by_cases hw : cl.uniqueId ∈ sw
        · simp only [if_pos hw]
          exact storeSkelMod_trans
            (setSkeleton_skelMod st.storeMap copyId cl.uniqueId)
            (ih { st with storeMap := setSkeletonInStore st.storeMap copyId cl.uniqueId } _ _)
        · simp only [if_neg hw]
          exact storeSkelMod_trans
            (setSkeleton_skelMod st.storeMap copyId cl.uniqueId)
            (ih { st with storeMap := setSkeletonInStore st.storeMap copyId cl.uniqueId } _ _)
      | none => exact ih st sw cl
    · simp only [skeletonMeshLoop, if_neg hg]
      exact ih st sw cl

theorem skeletonMeshLoop_stable (s : Skeleton) (st : PassState) (sw : List Nat)
    (cl : Skeleton) (ms : List NodeData) (id : Nat) :
    lookupCloneId (skeletonMeshLoop s st sw cl ms).1 id =
      lookupCloneId st id :=
  lookupCloneId_eq_of (skeletonMeshLoop_conv s st sw cl ms)
    (storeSkelMod_isSome (skeletonMeshLoop_skelMod s st sw cl ms)) id

theorem rewriteBones_congr {s s' : PassState}
    (h : ∀ id, lookupCloneId s' id = lookupCloneId s id) (bones : List Bone) :
    rewriteBones s' bones = rewriteBones s bones := by
  simp only [rewriteBones]
  apply List.map_congr_left
  intro b _
  cases hb : b.linkedTransformNode with
  | none => rfl
  | some lid => simp [h lid]

theorem skeletonMeshLoop_already (s : Skeleton) (st : PassState)
    (sw : List Nat) (cl : Skeleton) (ms : List NodeData)
    (hcl : cl.uniqueId ∈ sw) :
    (skeletonMeshLoop s st sw cl ms).2.1 = sw ∧
    (skeletonMeshLoop s st sw cl ms).2.2 = cl := by
  induction ms generalizing st with
  | nil => simp [skeletonMeshLoop]
  | cons m ms ih =>
    by_cases hg : m.skeleton = some s.uniqueId ∧ m.isAnInstance = false
    · simp only [skeletonMeshLoop, if_pos hg]
      cases hl : lookupCloneId st m.uniqueId with
      | some copyId =>
        simp only [if_pos hcl]
        exact ih _
      | none => exact ih st
    · simp only [skeletonMeshLoop, if_neg hg]
      exact ih st

theorem skeletonMeshLoop_main (s : Skeleton) (st : PassState) (sw : List Nat)
    (cl : Skeleton) (ms : List NodeData) (hcl : cl.uniqueId ∉ sw) :
    ((∃ m ∈ ms, meshMatches s m ∧
        (lookupCloneId st m.uniqueId).isSome = true) →
      (skeletonMeshLoop s st sw cl ms).2.1 = sw ++ [cl.uniqueId] ∧
      (skeletonMeshLoop s st sw cl ms).2.2 =
        { cl with bones := rewriteBones st cl.bones }) ∧
    ((∀ m ∈ ms, meshMatches s m →
        (lookupCloneId st m.uniqueId).isSome = false) →
      (skeletonMeshLoop s st sw cl ms).2.1 = sw ∧
      (skeletonMeshLoop s st sw cl ms).2.2 = cl) := by
  induction ms generalizing st with
  | nil =>
    constructor
    · intro h
      simp at h
    · intro h
      simp [skeletonMeshLoop]
  | cons m ms ih =>
    by_cases hg : m.skeleton = some s.uniqueId ∧ m.isAnInstance = false
    · have hmm : meshMatches s m := hg
      cases hl : lookupCloneId st m.uniqueId with
      | some copyId =>
        have hstable : ∀ id,
            lookupCloneId { st with storeMap := setSkeletonInStore st.storeMap copyId cl.uniqueId } id = lookupCloneId st id := by
          intro id
          refine lookupCloneId_eq_of ?_ ?_ id
          · rfl
          · exact storeSkelMod_isSome (setSkeleton_skelMod _ _ _)
        constructor
        · intro _
          simp only [skeletonMeshLoop, if_pos hg, hl, if_neg hcl]
          have halready := skeletonMeshLoop_already s
            { st with storeMap := setSkeletonInStore st.storeMap copyId cl.uniqueId }
            (sw ++ [cl.uniqueId])
            { cl with bones := rewriteBones { st with storeMap := setSkeletonInStore st.storeMap copyId cl.uniqueId } cl.bones }
            ms (by simp)
          rw [halready.1, halready.2]
          refine ⟨rfl, ?_⟩
          rw [rewriteBones_congr hstable]
        · intro hall
          have := hall m (List.mem_cons_self _ _) hmm
          rw [hl] at this
          simp at this
      | none =>
        constructor
        · intro hex
          obtain ⟨m0, hm0, hmm0, hsome0⟩ := hex
          rcases List.mem_cons.mp hm0 with h0 | h0
          · subst h0
            rw [hl] at hsome0
            simp at hsome0
          · simp only [skeletonMeshLoop, if_pos hg, hl]
            exact (ih st).1 ⟨m0, h0, hmm0, hsome0⟩
        · intro hall
          simp only [skeletonMeshLoop, if_pos hg, hl]
          exact (ih st).2 fun m0 h0 hmm0 =>
            hall m0 (List.mem_cons_of_mem _ h0) hmm0
    · have hnm : ¬ meshMatches s m := hg
      constructor
      · intro hex
        obtain ⟨m0, hm0, hmm0, hsome0⟩ := hex
        rcases List.mem_cons.mp hm0 with h0 | h0
        · subst h0
          exact absurd hmm0 hnm
        · simp only [skeletonMeshLoop, if_neg hg]
          exact (ih st).1 ⟨m0, h0, hmm0, hsome0⟩
      · intro hall
        simp only [skeletonMeshLoop, if_neg hg]
        exact (ih st).2 fun m0 h0 hmm0 =>
          hall m0 (List.mem_cons_of_mem _ h0) hmm0

theorem skeletonMeshLoop_swapped (s : Skeleton) (st : PassState)
    (sw : List Nat) (cl : Skeleton) (ms : List NodeData) :
    (skeletonMeshLoop s st sw cl ms).2.1 = sw ∨
    (skeletonMeshLoop s st sw cl ms).2.1 = sw ++ [cl.uniqueId] := by
  induction ms generalizing st with
  | nil => exact Or.inl rfl
  | cons m ms ih =>
    by_cases hg : m.skeleton = some s.uniqueId ∧ m.isAnInstance = false
    · simp only [skeletonMeshLoop, if_pos hg]
      cases hl : lookupCloneId st m.uniqueId with
      | some copyId =>
        by_cases hw : cl.uniqueId ∈ sw
        · simp only [if_pos hw]
          exact ih _
        · simp only [if_neg hw]
          have := skeletonMeshLoop_already s
            { st with storeMap := setSkeletonInStore st.storeMap copyId cl.uniqueId }
            (sw ++ [cl.uniqueId])
            { cl with bones := rewriteBones { st with storeMap := setSkeletonInStore st.storeMap copyId cl.uniqueId } cl.bones }
            ms (by simp)
          exact Or.inr this.1
      | none => exact ih st
    · simp only [skeletonMeshLoop, if_neg hg]
      exact ih st

theorem skeletonMeshLoop_clone_keep (s : Skeleton) (st : PassState)
    (sw : List Nat) (cl : Skeleton) (ms : List NodeData) :
    (skeletonMeshLoop s st sw cl ms).2.2.uniqueId = cl.uniqueId ∧
    (skeletonMeshLoop s st sw cl ms).2.2.name = cl.name ∧
    (skeletonMeshLoop s st sw cl ms).2.2.overrideMesh = cl.overrideMesh := by
  induction ms generalizing st sw cl with
  | nil => simp [skeletonMeshLoop]
  | cons m ms ih =>
    by_cases hg : m.skeleton = some s.uniqueId ∧ m.isAnInstance = false
    · simp only [skeletonMeshLoop, if_pos hg]
      cases hl : lookupCloneId st m.uniqueId with
      | some copyId =>
        by_cases hw : cl.uniqueId ∈ sw
        · simp only [if_pos hw]
          exact ih _ _ _
        · simp only [if_neg hw]
          exact ih _ _ _
      | none => exact ih st sw cl
    · simp only [skeletonMeshLoop, if_neg hg]
      exact ih st sw cl

theorem skeletonMeshLoop_store_preserve (s : Skeleton) (st : PassState)
    (sw : List Nat) (cl : Skeleton) (ms : List NodeData) (k : Nat)
    (h : ∀ m ∈ ms, meshMatches s m → lookupCloneId st m.uniqueId ≠ some k) :
    List.lookup k (skeletonMeshLoop s st sw cl ms).1.storeMap =
      List.lookup k st.storeMap := by
  induction ms generalizing st sw cl with
  | nil => simp [skeletonMeshLoop]
  | cons m ms ih =>
    by_cases hg : m.skeleton = some s.uniqueId ∧ m.isAnInstance = false
    · simp only [skeletonMeshLoop, if_pos hg]
      cases hl : lookupCloneId st m.uniqueId with
      | some copyId =>
        have hk : copyId ≠ k := by
          intro he
          exact h m (List.mem_cons_self _ _) hg (by rw [hl, he])
        have hstable : ∀ id,
            lookupCloneId { st with storeMap := setSkeletonInStore st.storeMap copyId cl.uniqueId } id = lookupCloneId st id := by
          intro id
          refine lookupCloneId_eq_of ?_ ?_ id
          · rfl
          · exact storeSkelMod_isSome (setSkeleton_skelMod _ _ _)
        have htail : ∀ m0 ∈ ms, meshMatches s m0 →
            lookupCloneId { st with storeMap := setSkeletonInStore st.storeMap copyId cl.uniqueId } m0.uniqueId ≠ some k := by
          intro m0 h0 hmm0
          rw [hstable]
          exact h m0 (List.mem_cons_of_mem _ h0) hmm0
        have hpres : List.lookup k
            (setSkeletonInStore st.storeMap copyId cl.uniqueId) =
            List.lookup k st.storeMap :=
          lookup_setSkeleton_ne (Ne.symm hk)
        by_cases hw : cl.uniqueId ∈ sw
        · simp only [if_pos hw]
          rw [ih _ _ _ htail]
          exact hpres
        · simp only [if_neg hw]
          rw [ih _ _ _ htail]
          exact hpres
      | none =>
        exact ih st sw cl fun m0 h0 hmm0 => h m0 (List.mem_cons_of_mem _ h0) hmm0
    · simp only [skeletonMeshLoop, if_neg hg]
      exact ih st sw cl fun m0 h0 hmm0 => h m0 (List.mem_cons_of_mem _ h0) hmm0

theorem skeletonMeshLoop_store_skel_stable (s : Skeleton) (st : PassState)
    (sw : List Nat) (cl : Skeleton) (ms : List NodeData) (k : Nat)
    (hd : ∃ d, List.lookup k st.storeMap = some (.node d) ∧
      d.skeleton = some cl.uniqueId) :
    ∃ d', List.lookup k (skeletonMeshLoop s st sw cl ms).1.storeMap =
      some (.node d') ∧ d'.skeleton = some cl.uniqueId := by
  induction ms generalizing st sw cl with
  | nil => simpa [skeletonMeshLoop] using hd
  | cons m ms ih =>
    obtain ⟨d, hdl, hds⟩ := hd
    by_cases hg : m.skeleton = some s.uniqueId ∧ m.isAnInstance = false
    · simp only [skeletonMeshLoop, if_pos hg]
      cases hl : lookupCloneId st m.uniqueId with
      | some copyId =>
        have hd1 : ∃ d1, List.lookup k
            (setSkeletonInStore st.storeMap copyId cl.uniqueId) =
            some (.node d1) ∧ d1.skeleton = some cl.uniqueId := by
          by_cases hk : copyId = k
          · subst hk
            exact ⟨{ d with skeleton := some cl.uniqueId },
              lookup_setSkeleton_eq_node hdl, rfl⟩
          · rw [lookup_setSkeleton_ne (Ne.symm hk)]
            exact ⟨d, hdl, hds⟩
        by_cases hw : cl.uniqueId ∈ sw
        · simp only [if_pos hw]
          exact ih _ _ _ hd1
        · simp only [if_neg hw]
          exact ih _ _ _ hd1
      | none => exact ih st sw cl ⟨d, hdl, hds⟩
    · simp only [skeletonMeshLoop, if_neg hg]
      exact ih st sw cl ⟨d, hdl, hds⟩

theorem skeletonMeshLoop_store_write (s : Skeleton) (st : PassState)
    (sw : List Nat) (cl : Skeleton) (ms : List NodeData) (k : Nat)
    (hex : ∃ m ∈ ms, meshMatches s m ∧ lookupCloneId st m.uniqueId = some k)
    (hnode : ∃ d, List.lookup k st.storeMap = some (.node d)) :
    ∃ d', List.lookup k (skeletonMeshLoop s st sw cl ms).1.storeMap =
      some (.node d') ∧ d'.skeleton = some cl.uniqueId := by
  induction ms generalizing st sw cl with
  | nil =>
    obtain ⟨m, hm, _⟩ := hex
    simp at hm
  | cons m ms ih =>
    obtain ⟨d, hdl⟩ := hnode
    by_cases hhit : meshMatches s m ∧ lookupCloneId st m.uniqueId = some k
    · have hg : m.skeleton = some s.uniqueId ∧ m.isAnInstance = false := hhit.1
      simp only [skeletonMeshLoop, if_pos hg, hhit.2]
      have hd1 : ∃ d1, List.lookup k
          (setSkeletonInStore st.storeMap k cl.uniqueId) =
          some (.node d1) ∧ d1.skeleton = some cl.uniqueId :=
        ⟨{ d with skeleton := some cl.uniqueId },
          lookup_setSkeleton_eq_node hdl, rfl⟩
      by_cases hw : cl.uniqueId ∈ sw
      · simp only [if_pos hw]
        exact skeletonMeshLoop_store_skel_stable s _ _ _ ms k hd1
      · simp only [if_neg hw]
        exact skeletonMeshLoop_store_skel_stable s _ _ _ ms k hd1
    · have htailex : ∃ m0 ∈ ms, meshMatches s m0 ∧
          lookupCloneId st m0.uniqueId = some k := by
        obtain ⟨m0, hm0, hmm0, hl0⟩ := hex
        rcases List.mem_cons.mp hm0 with h0 | h0
        · subst h0
          exact absurd ⟨hmm0, hl0⟩ hhit
        · exact ⟨m0, h0, hmm0, hl0⟩
      by_cases hg : m.skeleton = some s.uniqueId ∧ m.isAnInstance = false
      · simp only [skeletonMeshLoop, if_pos hg]
        cases hl : lookupCloneId st m.uniqueId with
        | some copyId =>
          have hk : copyId ≠ k := by
            intro he
            subst he
            exact hhit ⟨hg, hl⟩
          have hstable : ∀ id,
              lookupCloneId { st with storeMap := setSkeletonInStore st.storeMap copyId cl.uniqueId } id = lookupCloneId st id := by
            intro id
            refine lookupCloneId_eq_of ?_ ?_ id
            · rfl
            · exact storeSkelMod_isSome (setSkeleton_skelMod _ _ _)
          have htailex1 : ∃ m0 ∈ ms, meshMatches s m0 ∧
              lookupCloneId { st with storeMap := setSkeletonInStore st.storeMap copyId cl.uniqueId } m0.uniqueId = some k := by
            obtain ⟨m0, hm0, hmm0, hl0⟩ := htailex
            exact ⟨m0, hm0, hmm0, by rw [hstable]; exact hl0⟩
          have hnode1 : ∃ d1, List.lookup k
              (setSkeletonInStore st.storeMap copyId cl.uniqueId) =
              some (.node d1) := by
            rw [lookup_setSkeleton_ne (Ne.symm hk)]
            exact ⟨d, hdl⟩
          by_cases hw : cl.uniqueId ∈ sw
          · simp only [if_pos hw]
            exact ih _ _ _ htailex1 hnode1
          · simp only [if_neg hw]
            exact ih _ _ _ htailex1 hnode1
        | none => exact ih st sw cl htailex ⟨d, hdl⟩
      · simp only [skeletonMeshLoop, if_neg hg]
        exact ih st sw cl htailex ⟨d, hdl⟩

theorem instantiateSkeletons_length (md : List NodeData) (st : PassState)
    (sw : List Nat) (ss : List Skeleton) :
    (instantiateSkeletons md st sw ss).2.2.length = ss.length := by
  induction ss generalizing st sw with
  | nil => simp [instantiateSkeletons]
  | cons s ss ih =>
    simp only [instantiateSkeletons, List.length_cons]
    rw [ih]

theorem instantiateSkeletons_conv (md : List NodeData) (st : PassState)
    (sw : List Nat) (ss : List Skeleton) :
    (instantiateSkeletons md st sw ss).1.convertionMap = st.convertionMap := by
  induction ss generalizing st sw with
  | nil => simp [instantiateSkeletons]
  | cons s ss ih =>
    simp only [instantiateSkeletons]
    rw [ih, skeletonMeshLoop_conv]

theorem instantiateSkeletons_skelMod (md : List NodeData) (st : PassState)
    (sw : List Nat) (ss : List Skeleton) :
    storeSkelMod st.storeMap (instantiateSkeletons md st sw ss).1.storeMap := by
  induction ss generalizing st sw with
  | nil => simp only [instantiateSkeletons]; exact storeSkelMod_rfl _
  | cons s ss ih =>
    cases hom : s.overrideMesh with
    | none =>
      simp only [instantiateSkeletons, hom]
      refine storeSkelMod_trans ?_ (ih _ _)
      exact skeletonMeshLoop_skelMod s { st with fresh := st.fresh + 1 } _ _ md
    | some om =>
      simp only [instantiateSkeletons, hom]
      refine storeSkelMod_trans ?_ (ih _ _)
      exact skeletonMeshLoop_skelMod s { st with fresh := st.fresh + 1 } _ _ md

theorem instantiateSkeletons_stable (md : List NodeData) (st : PassState)
    (sw : List Nat) (ss : List Skeleton) (id : Nat) :
    lookupCloneId (instantiateSkeletons md st sw ss).1 id =
      lookupCloneId st id :=
  lookupCloneId_eq_of (instantiateSkeletons_conv md st sw ss)
    (storeSkelMod_isSome (instantiateSkeletons_skelMod md st sw ss)) id

theorem instantiateSkeletons_get (md : List NodeData) (st : PassState)
    (sw : List Nat) (ss : List Skeleton) (hsw : ∀ x ∈ sw, x < st.fresh)
    (j : Nat) (s0 : Skeleton) (hj : ss.get? j = some s0) :
    ∃ cl, (instantiateSkeletons md st sw ss).2.2.get? j = some cl ∧
      cl.uniqueId = st.fresh + j ∧
      cl.name = "Clone of " ++ s0.name ∧
      cl.overrideMesh =
        (match s0.overrideMesh with
         | some om => lookupCloneId st om
         | none => none) ∧
      ((∃ m ∈ md, meshMatches s0 m ∧
          (lookupCloneId st m.uniqueId).isSome = true) →
        cl.bones = rewriteBones st s0.bones) ∧
      ((∀ m ∈ md, meshMatches s0 m →
          (lookupCloneId st m.uniqueId).isSome = false) →
        cl.bones = s0.bones) := by
  induction ss generalizing st sw j with
  | nil => simp at hj
  | cons s ss ih =>
    cases j with
    | zero =>
      simp only [List.get?_cons_zero, Option.some.injEq] at hj
      subst hj
      have hclnotin : st.fresh ∉ sw := by
        intro hmem
        have := hsw _ hmem
        omega
      cases hom : s.overrideMesh with
      | none =>
        simp only [instantiateSkeletons, hom, List.get?_cons_zero]
        refine ⟨_, rfl, ?_⟩
        have hkeep := skeletonMeshLoop_clone_keep s { st with fresh := st.fresh + 1 } sw { uniqueId := st.fresh, name := "Clone of " ++ s.name, overrideMesh := none, bones := s.bones } md
        have hmain := skeletonMeshLoop_main s { st with fresh := st.fresh + 1 } sw { uniqueId := st.fresh, name := "Clone of " ++ s.name, overrideMesh := none, bones := s.bones } md hclnotin
        refine ⟨hkeep.1, hkeep.2.1, ?_, ?_, ?_⟩
        · rw [hkeep.2.2]
        · intro hex
          rw [(hmain.1 hex).2]
          exact rewriteBones_congr (fun id => rfl) s.bones
        · intro hall
          rw [(hmain.2 hall).2]
      | some om =>
        simp only [instantiateSkeletons, hom, List.get?_cons_zero]
        refine ⟨_, rfl, ?_⟩
        have hkeep := skeletonMeshLoop_clone_keep s { st with fresh := st.fresh + 1 } sw { uniqueId := st.fresh, name := "Clone of " ++ s.name, overrideMesh := lookupCloneId { st with fresh := st.fresh + 1 } om, bones := s.bones } md
        have hmain := skeletonMeshLoop_main s { st with fresh := st.fresh + 1 } sw { uniqueId := st.fresh, name := "Clone of " ++ s.name, overrideMesh := lookupCloneId { st with fresh := st.fresh + 1 } om, bones := s.bones } md hclnotin
        refine ⟨hkeep.1, hkeep.2.1, ?_, ?_, ?_⟩
        · rw [hkeep.2.2]
          rfl
        · intro hex
          rw [(hmain.1 hex).2]
          exact rewriteBones_congr (fun id => rfl) s.bones
        · intro hall
          rw [(hmain.2 hall).2]
    | succ j =>
      simp only [List.get?_cons_succ] at hj
      cases hom : s.overrideMesh with
      | none =>
        simp only [instantiateSkeletons, hom, List.get?_cons_succ]
        have hfr := skeletonMeshLoop_fresh s { st with fresh := st.fresh + 1 } sw { uniqueId := st.fresh, name := "Clone of " ++ s.name, overrideMesh := none, bones := s.bones } md
        simp only at hfr
        have hswB : ∀ x ∈ (skeletonMeshLoop s { st with fresh := st.fresh + 1 } sw { uniqueId := st.fresh, name := "Clone of " ++ s.name, overrideMesh := none, bones := s.bones } md).2.1,
            x < (skeletonMeshLoop s { st with fresh := st.fresh + 1 } sw { uniqueId := st.fresh, name := "Clone of " ++ s.name, overrideMesh := none, bones := s.bones } md).1.fresh := by
          intro x hx
          rw [hfr]
          rcases skeletonMeshLoop_swapped s { st with fresh := st.fresh + 1 } sw { uniqueId := st.fresh, name := "Clone of " ++ s.name, overrideMesh := none, bones := s.bones } md with hq | hq
          · rw [hq] at hx
            have := hsw _ hx
            omega
          · rw [hq] at hx
            rcases List.mem_append.mp hx with h1 | h1
            · have := hsw _ h1
              omega
            · simp at h1
              omega
        have hstab : ∀ id, lookupCloneId (skeletonMeshLoop s { st with fresh := st.fresh + 1 } sw { uniqueId := st.fresh, name := "Clone of " ++ s.name, overrideMesh := none, bones := s.bones } md).1 id = lookupCloneId st id := by
          intro id
          exact skeletonMeshLoop_stable s { st with fresh := st.fresh + 1 } sw _ md id
        obtain ⟨cl, hcl, h1, h2, h3, h4, h5⟩ := ih (skeletonMeshLoop s { st with fresh := st.fresh + 1 } sw { uniqueId := st.fresh, name := "Clone of " ++ s.name, overrideMesh := none, bones := s.bones } md).1 (skeletonMeshLoop s { st with fresh := st.fresh + 1 } sw { uniqueId := st.fresh, name := "Clone of " ++ s.name, overrideMesh := none, bones := s.bones } md).2.1 hswB j hj
        refine ⟨cl, hcl, ?_, h2, ?_, ?_, ?_⟩
        · rw [h1, hfr]
          omega
        · rw [h3]
          cases homj : s0.overrideMesh with
          | none => rfl
          | some omj => simp only [hstab]
        · intro hex
          rw [h4 (by
            obtain ⟨m, hm, hmm, hsm⟩ := hex
            exact ⟨m, hm, hmm, by rw [hstab]; exact hsm⟩)]
          exact rewriteBones_congr hstab _
        · intro hall
          exact h5 (by
            intro m hm hmm
            rw [hstab]
            exact hall m hm hmm)
      | some om =>
        simp only [instantiateSkeletons, hom, List.get?_cons_succ]
        have hfr := skeletonMeshLoop_fresh s { st with fresh := st.fresh + 1 } sw { uniqueId := st.fresh, name := "Clone of " ++ s.name, overrideMesh := lookupCloneId { st with fresh := st.fresh + 1 } om, bones := s.bones } md
        simp only at hfr
        have hswB : ∀ x ∈ (skeletonMeshLoop s { st with fresh := st.fresh + 1 } sw { uniqueId := st.fresh, name := "Clone of " ++ s.name, overrideMesh := lookupCloneId { st with fresh := st.fresh + 1 } om, bones := s.bones } md).2.1,
            x < (skeletonMeshLoop s { st with fresh := st.fresh + 1 } sw { uniqueId := st.fresh, name := "Clone of " ++ s.name, overrideMesh := lookupCloneId { st with fresh := st.fresh + 1 } om, bones := s.bones } md).1.fresh := by
          intro x hx
          rw [hfr]
          rcases skeletonMeshLoop_swapped s { st with fresh := st.fresh + 1 } sw { uniqueId := st.fresh, name := "Clone of " ++ s.name, overrideMesh := lookupCloneId { st with fresh := st.fresh + 1 } om, bones := s.bones } md with hq | hq
          · rw [hq] at hx
            have := hsw _ hx
            omega
          · rw [hq] at hx
            rcases List.mem_append.mp hx with h1 | h1
            · have := hsw _ h1
              omega
            · simp at h1
              omega
        have hstab : ∀ id, lookupCloneId (skeletonMeshLoop s { st with fresh := st.fresh + 1 } sw { uniqueId := st.fresh, name := "Clone of " ++ s.name, overrideMesh := lookupCloneId { st with fresh := st.fresh + 1 } om, bones := s.bones } md).1 id = lookupCloneId st id := by
          intro id
          exact skeletonMeshLoop_stable s { st with fresh := st.fresh + 1 } sw _ md id
        obtain ⟨cl, hcl, h1, h2, h3, h4, h5⟩ := ih (skeletonMeshLoop s { st with fresh := st.fresh + 1 } sw { uniqueId := st.fresh, name := "Clone of " ++ s.name, overrideMesh := lookupCloneId { st with fresh := st.fresh + 1 } om, bones := s.bones } md).1 (skeletonMeshLoop s { st with fresh := st.fresh + 1 } sw { uniqueId := st.fresh, name := "Clone of " ++ s.name, overrideMesh := lookupCloneId { st with fresh := st.fresh + 1 } om, bones := s.bones } md).2.1 hswB j hj
        refine ⟨cl, hcl, ?_, h2, ?_, ?_, ?_⟩
        · rw [h1, hfr]
          omega
        · rw [h3]
          cases homj : s0.overrideMesh with
          | none => rfl
          | some omj => simp only [hstab]
        · intro hex
          rw [h4 (by
            obtain ⟨m, hm, hmm, hsm⟩ := hex
            exact ⟨m, hm, hmm, by rw [hstab]; exact hsm⟩)]
          exact rewriteBones_congr hstab _
        · intro hall
          exact h5 (by
            intro m hm hmm
            rw [hstab]
            exact hall m hm hmm)

theorem instantiateSkeletons_store_preserve (md : List NodeData)
    (st : PassState) (sw : List Nat) (ss : List Skeleton) (k : Nat)
    (h : ∀ s' ∈ ss, ∀ m ∈ md, meshMatches s' m →
      lookupCloneId st m.uniqueId ≠ some k) :
    List.lookup k (instantiateSkeletons md st sw ss).1.storeMap =
      List.lookup k st.storeMap := by
  induction ss generalizing st sw with
  | nil => simp [instantiateSkeletons]
  | cons s ss ih =>
    cases hom : s.overrideMesh with
    | none =>
      simp only [instantiateSkeletons, hom]
      have hstab : ∀ id, lookupCloneId (skeletonMeshLoop s { st with fresh := st.fresh + 1 } sw { uniqueId := st.fresh, name := "Clone of " ++ s.name, overrideMesh := none, bones := s.bones } md).1 id = lookupCloneId st id :=
        fun id => skeletonMeshLoop_stable s { st with fresh := st.fresh + 1 } sw _ md id
      rw [ih _ _ (by
        intro s' hs' m hm hmm
        rw [hstab]
        exact h s' (List.mem_cons_of_mem _ hs') m hm hmm)]
      exact skeletonMeshLoop_store_preserve s { st with fresh := st.fresh + 1 } sw _ md k
        (fun m hm hmm => h s (List.mem_cons_self _ _) m hm hmm)
    | some om =>
      simp only [instantiateSkeletons, hom]
      have hstab : ∀ id, lookupCloneId (skeletonMeshLoop s { st with fresh := st.fresh + 1 } sw { uniqueId := st.fresh, name := "Clone of " ++ s.name, overrideMesh := lookupCloneId { st with fresh := st.fresh + 1 } om, bones := s.bones } md).1 id = lookupCloneId st id :=
        fun id => skeletonMeshLoop_stable s { st with fresh := st.fresh + 1 } sw _ md id
      rw [ih _ _ (by
        intro s' hs' m hm hmm
        rw [hstab]
        exact h s' (List.mem_cons_of_mem _ hs') m hm hmm)]
      exact skeletonMeshLoop_store_preserve s { st with fresh := st.fresh + 1 } sw _ md k
        (fun m hm hmm => h s (List.mem_cons_self _ _) m hm hmm)

theorem instantiateSkeletons_c6 (md : List NodeData) (st : PassState)
    (sw : List Nat) (ss : List Skeleton) (j : Nat) (sj : Skeleton)
    (hj : ss.get? j = some sj) (k : Nat)
    (hex : ∃ m ∈ md, meshMatches sj m ∧ lookupCloneId st m.uniqueId = some k)
    (hnode : ∃ d, List.lookup k st.storeMap = some (.node d))
    (hother : ∀ i, i ≠ j → ∀ si, ss.get? i = some si → ∀ m ∈ md,
      meshMatches si m → lookupCloneId st m.uniqueId ≠ some k) :
    ∃ d', List.lookup k (instantiateSkeletons md st sw ss).1.storeMap =
      some (.node d') ∧ d'.skeleton = some (st.fresh + j) := by
  induction ss generalizing st sw j with
  | nil => simp at hj
  | cons s ss ih =>
    cases j with
    | zero =>
      simp only [List.get?_cons_zero, Option.some.injEq] at hj
      subst hj
      cases hom : s.overrideMesh with
      | none =>
        simp only [instantiateSkeletons, hom]
        have hstab : ∀ id, lookupCloneId (skeletonMeshLoop s { st with fresh := st.fresh + 1 } sw { uniqueId := st.fresh, name := "Clone of " ++ s.name, overrideMesh := none, bones := s.bones } md).1 id = lookupCloneId st id :=
          fun id => skeletonMeshLoop_stable s { st with fresh := st.fresh + 1 } sw _ md id
        have hwrite := skeletonMeshLoop_store_write s { st with fresh := st.fresh + 1 } sw { uniqueId := st.fresh, name := "Clone of " ++ s.name, overrideMesh := none, bones := s.bones } md k hex hnode
        rw [instantiateSkeletons_store_preserve _ _ _ _ _ (by
          intro s' hs' m hm hmm
          rw [hstab]
          obtain ⟨i, hi⟩ := List.mem_iff_get?.mp hs'
          exact hother (i + 1) (by omega) s' (by simpa using hi) m hm hmm)]
        simpa using hwrite
      | some om =>
        simp only [instantiateSkeletons, hom]
        have hstab : ∀ id, lookupCloneId (skeletonMeshLoop s { st with fresh := st.fresh + 1 } sw { uniqueId := st.fresh, name := "Clone of " ++ s.name, overrideMesh := lookupCloneId { st with fresh := st.fresh + 1 } om, bones := s.bones } md).1 id = lookupCloneId st id :=
          fun id => skeletonMeshLoop_stable s { st with fresh := st.fresh + 1 } sw _ md id
        have hwrite := skeletonMeshLoop_store_write s { st with fresh := st.fresh + 1 } sw { uniqueId := st.fresh, name := "Clone of " ++ s.name, overrideMesh := lookupCloneId { st with fresh := st.fresh + 1 } om, bones := s.bones } md k hex hnode
        rw [instantiateSkeletons_store_preserve _ _ _ _ _ (by
          intro s' hs' m hm hmm
          rw [hstab]
          obtain ⟨i, hi⟩ := List.mem_iff_get?.mp hs'
          exact hother (i + 1) (by omega) s' (by simpa using hi) m hm hmm)]
        simpa using hwrite
    | succ j =>
      simp only [List.get?_cons_succ] at hj
      cases hom : s.overrideMesh with
      | none =>
        simp only [instantiateSkeletons, hom]
        have hstab : ∀ id, lookupCloneId (skeletonMeshLoop s { st with fresh := st.fresh + 1 } sw { uniqueId := st.fresh, name := "Clone of " ++ s.name, overrideMesh := none, bones := s.bones } md).1 id = lookupCloneId st id :=
          fun id => skeletonMeshLoop_stable s { st with fresh := st.fresh + 1 } sw _ md id
        have hfr := skeletonMeshLoop_fresh s { st with fresh := st.fresh + 1 } sw { uniqueId := st.fresh, name := "Clone of " ++ s.name, overrideMesh := none, bones := s.bones } md
        simp only at hfr
        have hpres : List.lookup k (skeletonMeshLoop s { st with fresh := st.fresh + 1 } sw { uniqueId := st.fresh, name := "Clone of " ++ s.name, overrideMesh := none, bones := s.bones } md).1.storeMap = List.lookup k st.storeMap :=
          skeletonMeshLoop_store_preserve s { st with fresh := st.fresh + 1 } sw _ md k
            (fun m hm hmm => hother 0 (by omega) s rfl m hm hmm)
        obtain ⟨d', hd1, hd2⟩ := ih (skeletonMeshLoop s { st with fresh := st.fresh + 1 } sw { uniqueId := st.fresh, name := "Clone of " ++ s.name, overrideMesh := none, bones := s.bones } md).1 (skeletonMeshLoop s { st with fresh := st.fresh + 1 } sw { uniqueId := st.fresh, name := "Clone of " ++ s.name, overrideMesh := none, bones := s.bones } md).2.1 j hj
          (by
            obtain ⟨m, hm, hmm, hl⟩ := hex
            exact ⟨m, hm, hmm, by rw [hstab]; exact hl⟩)
          (by rw [hpres]; exact hnode)
          (by
            intro i hi si hsi m hm hmm
            rw [hstab]
            exact hother (i + 1) (by omega) si (by simpa using hsi) m hm hmm)
        refine ⟨d', hd1, ?_⟩
        rw [hd2, hfr]
        exact congrArg some (by omega)
      | some om =>
        simp only [instantiateSkeletons, hom]
        have hstab : ∀ id, lookupCloneId (skeletonMeshLoop s { st with fresh := st.fresh + 1 } sw { uniqueId := st.fresh, name := "Clone of " ++ s.name, overrideMesh := lookupCloneId { st with fresh := st.fresh + 1 } om, bones := s.bones } md).1 id = lookupCloneId st id :=
          fun id => skeletonMeshLoop_stable s { st with fresh := st.fresh + 1 } sw _ md id
        have hfr := skeletonMeshLoop_fresh s { st with fresh := st.fresh + 1 } sw { uniqueId := st.fresh, name := "Clone of " ++ s.name, overrideMesh := lookupCloneId { st with fresh := st.fresh + 1 } om, bones := s.bones } md
        simp only at hfr
        have hpres : List.lookup k (skeletonMeshLoop s { st with fresh := st.fresh + 1 } sw { uniqueId := st.fresh, name := "Clone of " ++ s.name, overrideMesh := lookupCloneId { st with fresh := st.fresh + 1 } om, bones := s.bones } md).1.storeMap = List.lookup k st.storeMap :=
          skeletonMeshLoop_store_preserve s { st with fresh := st.fresh + 1 } sw _ md k
            (fun m hm hmm => hother 0 (by omega) s rfl m hm hmm)
        obtain ⟨d', hd1, hd2⟩ := ih (skeletonMeshLoop s { st with fresh := st.fresh + 1 } sw { uniqueId := st.fresh, name := "Clone of " ++ s.name, overrideMesh := lookupCloneId { st with fresh := st.fresh + 1 } om, bones := s.bones } md).1 (skeletonMeshLoop s { st with fresh := st.fresh + 1 } sw { uniqueId := st.fresh, name := "Clone of " ++ s.name, overrideMesh := lookupCloneId { st with fresh := st.fresh + 1 } om, bones := s.bones } md).2.1 j hj
          (by
            obtain ⟨m, hm, hmm, hl⟩ := hex
            exact ⟨m, hm, hmm, by rw [hstab]; exact hl⟩)
          (by rw [hpres]; exact hnode)
          (by
            intro i hi si hsi m hm hmm
            rw [hstab]
            exact hother (i + 1) (by omega) si (by simpa using hsi) m hm hmm)
        refine ⟨d', hd1, ?_⟩
        rw [hd2, hfr]
        exact congrArg some (by omega)

theorem instantiateSkeletons_swapped_mono (md : List NodeData) (st : PassState)
    (sw : List Nat) (ss : List Skeleton) :
    ∃ t, (instantiateSkeletons md st sw ss).2.1 = sw ++ t := by
  induction ss generalizing st sw with
  | nil => exact ⟨[], by simp [instantiateSkeletons]⟩
  | cons s ss ih =>
    cases hom : s.overrideMesh with
    | none =>
      simp only [instantiateSkeletons, hom]
      obtain ⟨t, ht⟩ := ih (skeletonMeshLoop s { st with fresh := st.fresh + 1 } sw { uniqueId := st.fresh, name := "Clone of " ++ s.name, overrideMesh := none, bones := s.bones } md).1 (skeletonMeshLoop s { st with fresh := st.fresh + 1 } sw { uniqueId := st.fresh, name := "Clone of " ++ s.name, overrideMesh := none, bones := s.bones } md).2.1
      rcases skeletonMeshLoop_swapped s { st with fresh := st.fresh + 1 } sw { uniqueId := st.fresh, name := "Clone of " ++ s.name, overrideMesh := none, bones := s.bones } md with hq | hq
      · rw [ht, hq]
        exact ⟨t, rfl⟩
      · rw [ht, hq]
        exact ⟨[st.fresh] ++ t, by simp⟩
    | some om =>
      simp only [instantiateSkeletons, hom]
      obtain ⟨t, ht⟩ := ih (skeletonMeshLoop s { st with fresh := st.fresh + 1 } sw { uniqueId := st.fresh, name := "Clone of " ++ s.name, overrideMesh := lookupCloneId { st with fresh := st.fresh + 1 } om, bones := s.bones } md).1 (skeletonMeshLoop s { st with fresh := st.fresh + 1 } sw { uniqueId := st.fresh, name := "Clone of " ++ s.name, overrideMesh := lookupCloneId { st with fresh := st.fresh + 1 } om, bones := s.bones } md).2.1
      rcases skeletonMeshLoop_swapped s { st with fresh := st.fresh + 1 } sw { uniqueId := st.fresh, name := "Clone of " ++ s.name, overrideMesh := lookupCloneId { st with fresh := st.fresh + 1 } om, bones := s.bones } md with hq | hq
      · rw [ht, hq]
        exact ⟨t, rfl⟩
      · rw [ht, hq]
        exact ⟨[st.fresh] ++ t, by simp⟩

theorem instantiateSkeletons_swapped_nodup (md : List NodeData)
    (st : PassState) (sw : List Nat) (ss : List Skeleton) (hnd : sw.Nodup)
    (hb : ∀ x ∈ sw, x < st.fresh) :
    (instantiateSkeletons md st sw ss).2.1.Nodup ∧
    ∀ x ∈ (instantiateSkeletons md st sw ss).2.1,
      x < (instantiateSkeletons md st sw ss).1.fresh := by
  induction ss generalizing st sw with
  | nil => exact ⟨by simpa [instantiateSkeletons] using hnd,
      by simpa [instantiateSkeletons] using hb⟩
  | cons s ss ih =>
    cases hom : s.overrideMesh with
    | none =>
      simp only [instantiateSkeletons, hom]
      have hfr := skeletonMeshLoop_fresh s { st with fresh := st.fresh + 1 } sw { uniqueId := st.fresh, name := "Clone of " ++ s.name, overrideMesh := none, bones := s.bones } md
      simp only at hfr
      rcases skeletonMeshLoop_swapped s { st with fresh := st.fresh + 1 } sw { uniqueId := st.fresh, name := "Clone of " ++ s.name, overrideMesh := none, bones := s.bones } md with hq | hq
      · refine ih _ _ (by rw [hq]; exact hnd) ?_
        rw [hq, hfr]
        intro x hx
        have := hb x hx
        omega
      · refine ih _ _ (by
          rw [hq]
          refine List.Nodup.append hnd (by simp) ?_
          intro a ha hb2
          simp at hb2
          subst hb2
          have := hb _ ha
          omega) ?_
        rw [hq, hfr]
        intro x hx
        rcases List.mem_append.mp hx with h1 | h1
        · have := hb _ h1
          omega
        · simp at h1
          omega
    | some om =>
      simp only [instantiateSkeletons, hom]
      have hfr := skeletonMeshLoop_fresh s { st with fresh := st.fresh + 1 } sw { uniqueId := st.fresh, name := "Clone of " ++ s.name, overrideMesh := lookupCloneId { st with fresh := st.fresh + 1 } om, bones := s.bones } md
      simp only at hfr
      rcases skeletonMeshLoop_swapped s { st with fresh := st.fresh + 1 } sw { uniqueId := st.fresh, name := "Clone of " ++ s.name, overrideMesh := lookupCloneId { st with fresh := st.fresh + 1 } om, bones := s.bones } md with hq | hq
      · refine ih _ _ (by rw [hq]; exact hnd) ?_
        rw [hq, hfr]
        intro x hx
        have := hb x hx
        omega
      · refine ih _ _ (by
          rw [hq]
          refine List.Nodup.append hnd (by simp) ?_
          intro a ha hb2
          simp at hb2
          subst hb2
          have := hb _ ha
          omega) ?_
        rw [hq, hfr]
        intro x hx
        rcases List.mem_append.mp hx with h1 | h1
        · have := hb _ h1
          omega
        · simp at h1
          omega

theorem instantiateSkeletons_swapped_mem (md : List NodeData) (st : PassState)
    (sw : List Nat) (ss : List Skeleton) (j : Nat) (sj : Skeleton)
    (hj : ss.get? j = some sj) (hb : ∀ x ∈ sw, x < st.fresh)
    (hex : ∃ m ∈ md, meshMatches sj m ∧
      (lookupCloneId st m.uniqueId).isSome = true) :
    (st.fresh + j) ∈ (instantiateSkeletons md st sw ss).2.1 := by
  induction ss generalizing st sw j with
  | nil => simp at hj
  | cons s ss ih =>
    cases j with
    | zero =>
      simp only [List.get?_cons_zero, Option.some.injEq] at hj
      subst hj
      have hclnotin : st.fresh ∉ sw := by
        intro hmem
        have := hb _ hmem
        omega
      cases hom : s.overrideMesh with
      | none =>
        simp only [instantiateSkeletons, hom]
        have hmain := skeletonMeshLoop_main s { st with fresh := st.fresh + 1 } sw { uniqueId := st.fresh, name := "Clone of " ++ s.name, overrideMesh := none, bones := s.bones } md hclnotin
        have hq := (hmain.1 hex).1
        obtain ⟨t, ht⟩ := instantiateSkeletons_swapped_mono md (skeletonMeshLoop s { st with fresh := st.fresh + 1 } sw { uniqueId := st.fresh, name := "Clone of " ++ s.name, overrideMesh := none, bones := s.bones } md).1 (skeletonMeshLoop s { st with fresh := st.fresh + 1 } sw { uniqueId := st.fresh, name := "Clone of " ++ s.name, overrideMesh := none, bones := s.bones } md).2.1 ss
        rw [ht, hq]
        simp
      | some om =>
        simp only [instantiateSkeletons, hom]
        have hmain := skeletonMeshLoop_main s { st with fresh := st.fresh + 1 } sw { uniqueId := st.fresh, name := "Clone of " ++ s.name, overrideMesh := lookupCloneId { st with fresh := st.fresh + 1 } om, bones := s.bones } md hclnotin
        have hq := (hmain.1 hex).1
        obtain ⟨t, ht⟩ := instantiateSkeletons_swapped_mono md (skeletonMeshLoop s { st with fresh := st.fresh + 1 } sw { uniqueId := st.fresh, name := "Clone of " ++ s.name, overrideMesh := lookupCloneId { st with fresh := st.fresh + 1 } om, bones := s.bones } md).1 (skeletonMeshLoop s { st with fresh := st.fresh + 1 } sw { uniqueId := st.fresh, name := "Clone of " ++ s.name, overrideMesh := lookupCloneId { st with fresh := st.fresh + 1 } om, bones := s.bones } md).2.1 ss
        rw [ht, hq]
        simp
    | succ j =>
      simp only [List.get?_cons_succ] at hj
      cases hom : s.overrideMesh with
      | none =>
        simp only [instantiateSkeletons, hom]
        have hfr := skeletonMeshLoop_fresh s { st with fresh := st.fresh + 1 } sw { uniqueId := st.fresh, name := "Clone of " ++ s.name, overrideMesh := none, bones := s.bones } md
        simp only at hfr
        have hstab : ∀ id, lookupCloneId (skeletonMeshLoop s { st with fresh := st.fresh + 1 } sw { uniqueId := st.fresh, name := "Clone of " ++ s.name, overrideMesh := none, bones := s.bones } md).1 id = lookupCloneId st id :=
          fun id => skeletonMeshLoop_stable s { st with fresh := st.fresh + 1 } sw _ md id
        have hb' : ∀ x ∈ (skeletonMeshLoop s { st with fresh := st.fresh + 1 } sw { uniqueId := st.fresh, name := "Clone of " ++ s.name, overrideMesh := none, bones := s.bones } md).2.1, x < (skeletonMeshLoop s { st with fresh := st.fresh + 1 } sw { uniqueId := st.fresh, name := "Clone of " ++ s.name, overrideMesh := none, bones := s.bones } md).1.fresh := by
          intro x hx
          rw [hfr]
          rcases skeletonMeshLoop_swapped s { st with fresh := st.fresh + 1 } sw { uniqueId := st.fresh, name := "Clone of " ++ s.name, overrideMesh := none, bones := s.bones } md with hq | hq
          · rw [hq] at hx
            have := hb _ hx
            omega
          · rw [hq] at hx
            rcases List.mem_append.mp hx with h1 | h1
            · have := hb _ h1
              omega
            · simp at h1
              omega
        have := ih (skeletonMeshLoop s { st with fresh := st.fresh + 1 } sw { uniqueId := st.fresh, name := "Clone of " ++ s.name, overrideMesh := none, bones := s.bones } md).1 (skeletonMeshLoop s { st with fresh := st.fresh + 1 } sw { uniqueId := st.fresh, name := "Clone of " ++ s.name, overrideMesh := none, bones := s.bones } md).2.1 j hj hb' (by
          obtain ⟨m, hm, hmm, hl⟩ := hex
          exact ⟨m, hm, hmm, by rw [hstab]; exact hl⟩)
        rw [hfr] at this
        have harith : st.fresh + 1 + j = st.fresh + (j + 1) := by omega
        rw [harith] at this
        exact this
      | some om =>
        simp only [instantiateSkeletons, hom]
        have hfr := skeletonMeshLoop_fresh s { st with fresh := st.fresh + 1 } sw { uniqueId := st.fresh, name := "Clone of " ++ s.name, overrideMesh := lookupCloneId { st with fresh := st.fresh + 1 } om, bones := s.bones } md
        simp only at hfr
        have hstab : ∀ id, lookupCloneId (skeletonMeshLoop s { st with fresh := st.fresh + 1 } sw { uniqueId := st.fresh, name := "Clone of " ++ s.name, overrideMesh := lookupCloneId { st with fresh := st.fresh + 1 } om, bones := s.bones } md).1 id = lookupCloneId st id :=
          fun id => skeletonMeshLoop_stable s { st with fresh := st.fresh + 1 } sw _ md id
        have hb' : ∀ x ∈ (skeletonMeshLoop s { st with fresh := st.fresh + 1 } sw { uniqueId := st.fresh, name := "Clone of " ++ s.name, overrideMesh := lookupCloneId { st with fresh := st.fresh + 1 } om, bones := s.bones } md).2.1, x < (skeletonMeshLoop s { st with fresh := st.fresh + 1 } sw { uniqueId := st.fresh, name := "Clone of " ++ s.name, overrideMesh := lookupCloneId { st with fresh := st.fresh + 1 } om, bones := s.bones } md).1.fresh := by
          intro x hx
          rw [hfr]
          rcases skeletonMeshLoop_swapped s { st with fresh := st.fresh + 1 } sw { uniqueId := st.fresh, name := "Clone of " ++ s.name, overrideMesh := lookupCloneId { st with fresh := st.fresh + 1 } om, bones := s.bones } md with hq | hq
          · rw [hq] at hx
            have := hb _ hx
            omega
          · rw [hq] at hx
            rcases List.mem_append.mp hx with h1 | h1
            · have := hb _ h1
              omega
            · simp at h1
              omega
        have := ih (skeletonMeshLoop s { st with fresh := st.fresh + 1 } sw { uniqueId := st.fresh, name := "Clone of " ++ s.name, overrideMesh := lookupCloneId { st with fresh := st.fresh + 1 } om, bones := s.bones } md).1 (skeletonMeshLoop s { st with fresh := st.fresh + 1 } sw { uniqueId := st.fresh, name := "Clone of " ++ s.name, overrideMesh := lookupCloneId { st with fresh := st.fresh + 1 } om, bones := s.bones } md).2.1 j hj hb' (by
          obtain ⟨m, hm, hmm, hl⟩ := hex
          exact ⟨m, hm, hmm, by rw [hstab]; exact hl⟩)
        rw [hfr] at this
        have harith : st.fresh + 1 + j = st.fresh + (j + 1) := by omega
        rw [harith] at this
        exact this

/-! ## Lemmas about `addAllToScene` / `removeAllFromScene` -/

theorem foldl_addAsset (c l : List Nat) :
    List.foldl addAsset l c = l ++ c := by
  induction c generalizing l with
  | nil => simp
  | cons x c ih =>
    simp only [List.foldl_cons, addAsset, ih]
    simp

theorem removeAsset_eq_erase (l : List Nat) (o : Nat) :
    removeAsset l o = l.erase o := by
  induction l with
  | nil => rfl
  | cons x xs ih =>
    by_cases hx : x = o
    · subst hx
      simp [removeAsset, List.erase_cons_head]
    · simp only [removeAsset, if_neg hx, ih]
      rw [List.erase_cons_tail]
      simp [hx]

theorem foldl_removeAsset_congr_perm {l1 l2 : List Nat} (cs : List Nat)
    (h : l1.Perm l2) :
    (List.foldl removeAsset l1 cs).Perm (List.foldl removeAsset l2 cs) := by
  induction cs generalizing l1 l2 with
  | nil => exact h
  | cons c cs ih =>
    simp only [List.foldl_cons]
    apply ih
    rw [removeAsset_eq_erase, removeAsset_eq_erase]
    exact h.erase c

theorem foldl_removeAsset_perm (cs l : List Nat) :
    (List.foldl removeAsset (l ++ cs) cs).Perm l := by
  induction cs generalizing l with
  | nil => simp
  | cons c cs ih =>
    simp only [List.foldl_cons]
    have h1 : (removeAsset (l ++ c :: cs) c).Perm (l ++ cs) := by
      rw [removeAsset_eq_erase]
      have hmid : (l ++ c :: cs).Perm (c :: (l ++ cs)) := List.perm_middle
      have := hmid.erase c
      rwa [List.erase_cons_head] at this
    exact (foldl_removeAsset_congr_perm cs h1).trans (ih l)

theorem add_remove_bucket (s c : List Nat) :
    (List.foldl removeAsset (List.foldl addAsset s c) c).Perm s := by
  rw [foldl_addAsset]
  exact foldl_removeAsset_perm c s

/-! ## Bridging lemmas for the claims -/

theorem instantiateAnimationGroups_get (st : PassState)
    (gs : List AnimationGroup) (j : Nat) (g : AnimationGroup)
    (hj : gs.get? j = some g) :
    (instantiateAnimationGroups st gs).get? j =
      some { name := g.name,
             targets := g.targets.map fun t =>
               match lookupCloneId st t with
               | some nt => nt
               | none => t } := by
  induction gs generalizing j with
  | nil => simp at hj
  | cons g0 gs ih =>
    cases j with
    | zero =>
      simp only [List.get?_cons_zero, Option.some.injEq] at hj
      subst hj
      simp [instantiateAnimationGroups]
    | succ j =>
      simp only [List.get?_cons_succ] at hj
      simp only [instantiateAnimationGroups, List.get?_cons_succ]
      exact ih j hj

theorem instantiateAnimationGroups_length (st : PassState)
    (gs : List AnimationGroup) :
    (instantiateAnimationGroups st gs).length = gs.length := by
  induction gs with
  | nil => rfl
  | cons g gs ih => simp [instantiateAnimationGroups, ih]

theorem nodup_get?_inj {l : List Nat} (h : l.Nodup) {i j : Nat} {a : Nat}
    (hi : l.get? i = some a) (hj : l.get? j = some a) : i = j := by
  induction l generalizing i j with
  | nil => simp at hi
  | cons x xs ih =>
    cases i with
    | zero =>
      cases j with
      | zero => rfl
      | succ j =>
        simp only [List.get?_cons_zero, Option.some.injEq] at hi
        simp only [List.get?_cons_succ] at hj
        subst hi
        exact absurd (List.get?_mem hj) (List.Nodup.not_mem h)
    | succ i =>
      cases j with
      | zero =>
        simp only [List.get?_cons_succ] at hi
        simp only [List.get?_cons_zero, Option.some.injEq] at hj
        subst hj
        exact absurd (List.get?_mem hi) (List.Nodup.not_mem h)
      | succ j =>
        simp only [List.get?_cons_succ] at hi hj
        exact congrArg Nat.succ (ih (List.Nodup.of_cons h) hi hj)

theorem lookup_inj_of_nodup_values {l : List (Nat × Nat)}
    (h : (l.map Prod.snd).Nodup) {a b v : Nat}
    (ha : List.lookup a l = some v) (hb : List.lookup b l = some v) :
    a = b := by
  have hma := lookup_mem ha
  have hmb := lookup_mem hb
  have heq := List.inj_on_of_nodup_map h hma hmb rfl
  exact congrArg Prod.fst heq

theorem lookupCloneId_some {st : PassState} {x v : Nat}
    (h : lookupCloneId st x = some v) :
    List.lookup x st.convertionMap = some v ∧
    (List.lookup v st.storeMap).isSome = true := by
  cases hc : List.lookup x st.convertionMap with
  | none => simp [lookupCloneId, hc] at h
  | some cid =>
    cases hs : List.lookup cid st.storeMap with
    | none => simp [lookupCloneId, hc, hs] at h
    | some e =>
      have hcv : cid = v := by simpa [lookupCloneId, hc, hs] using h
      constructor
      · rw [hcv]
      · rw [← hcv, hs]
        rfl

theorem cloneState_step (c : AssetContainer) (f0 : Nat) :
    StepAdds (initialState f0) (cloneState c f0).1 := by
  simp only [cloneState]
  exact StepAdds_trans (instantiateRootList_step (initialState f0) c.transformNodes)
    (instantiateRootList_step _ c.meshes)

theorem cloneState_conv_nodup (c : AssetContainer) (f0 : Nat) :
    ((cloneState c f0).1.convertionMap.map Prod.snd).Nodup := by
  obtain ⟨hf, dc, ds, hc, hs, hbc, hbs, hnd, hlk⟩ := cloneState_step c f0
  rw [hc]
  simpa [initialState] using hnd

theorem cloneState_resolvable (c : AssetContainer) (f0 : Nat) :
    ∀ p ∈ (cloneState c f0).1.convertionMap,
      (List.lookup p.2 (cloneState c f0).1.storeMap).isSome = true := by
  obtain ⟨hf, dc, ds, hc, hs, hbc, hbs, hnd, hlk⟩ := cloneState_step c f0
  intro p hp
  rw [hc] at hp
  rcases List.mem_append.mp hp with h | h
  · exact hlk p h
  · simp [initialState] at h

theorem cloneState_recorded (c : AssetContainer) (f0 : Nat) :
    ∀ d0 ∈ capturedNodes c, NodeRecorded (cloneState c f0).1 f0 d0 := by
  intro d0 hd0
  simp only [capturedNodes] at hd0
  simp only [cloneState]
  rcases List.mem_append.mp hd0 with h | h
  · exact NodeRecorded_step (instantiateRootList_step _ c.meshes)
      (instantiateRootList_recorded (initialState f0) c.transformNodes f0
        (Nat.le_refl _) d0 h)
  · exact instantiateRootList_recorded _ c.meshes f0
      (Nat.le_trans (Nat.le_refl f0)
        (instantiateRootList_step (initialState f0) c.transformNodes).1) d0 h

theorem cloneState_lookup_of_captured (c : AssetContainer) (f0 : Nat)
    (id : Nat) (h : id ∈ (capturedNodes c).map NodeData.uniqueId) :
    (lookupCloneId (cloneState c f0).1 id).isSome = true := by
  obtain ⟨d0, hd0, hid⟩ := List.mem_map.mp h
  obtain ⟨cid, d', hb, hlt, hconv, hstore, huid, hmorph⟩ :=
    cloneState_recorded c f0 d0 hd0
  subst hid
  obtain ⟨w, hw⟩ := lookup_some_of_mem hconv
  have hres := cloneState_resolvable c f0 _ (lookup_mem hw)
  cases hsw : List.lookup w (cloneState c f0).1.storeMap with
  | none => rw [hsw] at hres; simp at hres
  | some e => simp [lookupCloneId, hw, hsw]

theorem setSkeleton_target_mem {sm : List (Nat × StoredEntity)} {c sk : Nat}
    {id : Nat} {t : MorphTarget}
    (h : (id, StoredEntity.target t) ∈ sm) :
    (id, StoredEntity.target t) ∈ setSkeletonInStore sm c sk := by
  have hmem := List.mem_map_of_mem
    (fun p : Nat × StoredEntity =>
      (p.1,
        if p.1 = c then
          match p.2 with
          | .node d => StoredEntity.node { d with skeleton := some sk }
          | .target t => StoredEntity.target t
        else p.2)) h
  simp only at hmem
  by_cases hid : id = c
  · simpa [setSkeletonInStore, hid] using hmem
  · simpa [setSkeletonInStore, hid] using hmem

theorem skeletonMeshLoop_target_mem (s : Skeleton) (st : PassState)
    (sw : List Nat) (cl : Skeleton) (ms : List NodeData) {id : Nat}
    {t : MorphTarget} (h : (id, StoredEntity.target t) ∈ st.storeMap) :
    (id, StoredEntity.target t) ∈
      (skeletonMeshLoop s st sw cl ms).1.storeMap := by
  induction ms generalizing st sw cl with
  | nil => simpa [skeletonMeshLoop] using h
  | cons m ms ih =>
    by_cases hg : m.skeleton = some s.uniqueId ∧ m.isAnInstance = false
    · simp only [skeletonMeshLoop, if_pos hg]
      cases hl : lookupCloneId st m.uniqueId with
      | some copyId =>
        by_cases hw : cl.uniqueId ∈ sw
        · simp only [if_pos hw]
          exact ih _ _ _ (setSkeleton_target_mem h)
        · simp only [if_neg hw]
          exact ih _ _ _ (setSkeleton_target_mem h)
      | none => exact ih st sw cl h
    · simp only [skeletonMeshLoop, if_neg hg]
      exact ih st sw cl h

theorem instantiateSkeletons_target_mem (md : List NodeData) (st : PassState)
    (sw : List Nat) (ss : List Skeleton) {id : Nat} {t : MorphTarget}
    (h : (id, StoredEntity.target t) ∈ st.storeMap) :
    (id, StoredEntity.target t) ∈
      (instantiateSkeletons md st sw ss).1.storeMap := by
  induction ss generalizing st sw with
  | nil => simpa [instantiateSkeletons] using h
  | cons s ss ih =>
    cases hom : s.overrideMesh with
    | none =>
      simp only [instantiateSkeletons, hom]
      exact ih _ _ (skeletonMeshLoop_target_mem s { st with fresh := st.fresh + 1 } sw _ md h)
    | some om =>
      simp only [instantiateSkeletons, hom]
      exact ih _ _ (skeletonMeshLoop_target_mem s { st with fresh := st.fresh + 1 } sw _ md h)

theorem bind_some_cases {α β : Type} {o : Option α} {f : α → Option β}
    {b : β} (h : o.bind f = some b) : ∃ a, o = some a ∧ f a = some b := by
  cases o with
  | none => cases h
  | some a => exact ⟨a, rfl, h⟩

theorem bind_none_cases {α β : Type} {o : Option α} {f : α → Option β}
    (h : o.bind f = none) : o = none ∨ ∃ a, o = some a ∧ f a = none := by
  cases o with
  | none => exact Or.inl rfl
  | some a => exact Or.inr ⟨a, rfl, h⟩

theorem lookupCloneId_setSkeleton (st : PassState) (c sk id : Nat) :
    lookupCloneId
      { st with storeMap := setSkeletonInStore st.storeMap c sk } id =
      lookupCloneId st id := by
  refine lookupCloneId_eq_of ?_ ?_ id
  · rfl
  · exact storeSkelMod_isSome (setSkeleton_skelMod st.storeMap c sk)

theorem skeletonMeshLoopE_some (s : Skeleton) (st : PassState)
    (sw : List Nat) (cl : Skeleton) (ms : List NodeData)
    {r : PassState × List Nat × Skeleton}
    (h : skeletonMeshLoopE s st sw cl ms = some r) :
    r = skeletonMeshLoop s st sw cl ms := by
  induction ms generalizing st sw cl r with
  | nil =>
    simp only [skeletonMeshLoopE] at h
    simp only [skeletonMeshLoop]
    exact (Option.some_inj.mp h).symm
  | cons m ms ih =>
    by_cases hg : m.skeleton = some s.uniqueId ∧ m.isAnInstance = false
    · simp only [skeletonMeshLoopE, if_pos hg] at h
      simp only [skeletonMeshLoop, if_pos hg]
      cases hl : lookupCloneId st m.uniqueId with
      | some copyId =>
        simp only [hl] at h
        by_cases hw : cl.uniqueId ∈ sw
        · simp only [if_pos hw] at h ⊢
          exact ih _ _ _ h
        · simp only [if_neg hw] at h ⊢
          exact ih _ _ _ h
      | none => simp [hl] at h
    · simp only [skeletonMeshLoopE, if_neg hg] at h
      simp only [skeletonMeshLoop, if_neg hg]
      exact ih _ _ _ h

theorem skeletonMeshLoopE_none (s : Skeleton) (st : PassState)
    (sw : List Nat) (cl : Skeleton) (ms : List NodeData)
    (h : skeletonMeshLoopE s st sw cl ms = none) :
    ∃ m ∈ ms, m.skeleton = some s.uniqueId ∧ m.isAnInstance = false ∧
      lookupCloneId st m.uniqueId = none := by
  induction ms generalizing st sw cl with
  | nil => simp [skeletonMeshLoopE] at h
  | cons m ms ih =>
    by_cases hg : m.skeleton = some s.uniqueId ∧ m.isAnInstance = false
    · simp only [skeletonMeshLoopE, if_pos hg] at h
      cases hl : lookupCloneId st m.uniqueId with
      | some copyId =>
        simp only [hl] at h
        by_cases hw : cl.uniqueId ∈ sw
        · simp only [if_pos hw] at h
          obtain ⟨m', hm', h1, h2, h3⟩ := ih _ _ _ h
          exact ⟨m', List.mem_cons_of_mem m hm', h1, h2,
            (lookupCloneId_setSkeleton st copyId cl.uniqueId
              m'.uniqueId).symm.trans h3⟩
        · simp only [if_neg hw] at h
          obtain ⟨m', hm', h1, h2, h3⟩ := ih _ _ _ h
          exact ⟨m', List.mem_cons_of_mem m hm', h1, h2,
            (lookupCloneId_setSkeleton st copyId cl.uniqueId
              m'.uniqueId).symm.trans h3⟩
      | none => exact ⟨m, List.mem_cons_self m ms, hg.1, hg.2, hl⟩
    · simp only [skeletonMeshLoopE, if_neg hg] at h
      obtain ⟨m', hm', h1, h2, h3⟩ := ih _ _ _ h
      exact ⟨m', List.mem_cons_of_mem m hm', h1, h2, h3⟩

theorem instantiateSkeletonsE_some (md : List NodeData) (st : PassState)
    (sw : List Nat) (ss : List Skeleton)
    {r : PassState × List Nat × List Skeleton}
    (h : instantiateSkeletonsE md st sw ss = some r) :
    r = instantiateSkeletons md st sw ss := by
  induction ss generalizing st sw r with
  | nil =>
    simp only [instantiateSkeletonsE] at h
    simp only [instantiateSkeletons]
    exact (Option.some_inj.mp h).symm
  | cons s ss ih =>
    cases hom : s.overrideMesh with
    | none =>
      simp only [instantiateSkeletonsE, hom] at h
      simp only [instantiateSkeletons, hom]
      obtain ⟨r1, hml, h⟩ := bind_some_cases h
      obtain ⟨rest, hrest, h⟩ := bind_some_cases h
      rw [← skeletonMeshLoopE_some s _ _ _ _ hml, ← ih _ _ hrest]
      exact (Option.some_inj.mp h).symm
    | some om =>
      simp only [instantiateSkeletonsE, hom] at h
      simp only [instantiateSkeletons, hom]
      obtain ⟨r1, hml, h⟩ := bind_some_cases h
      obtain ⟨rest, hrest, h⟩ := bind_some_cases h
      rw [← skeletonMeshLoopE_some s _ _ _ _ hml, ← ih _ _ hrest]
      exact (Option.some_inj.mp h).symm

theorem instantiateSkeletonsE_none (md : List NodeData) (st : PassState)
    (sw : List Nat) (ss : List Skeleton)
    (h : instantiateSkeletonsE md st sw ss = none) :
    ∃ s ∈ ss, ∃ m ∈ md, m.skeleton = some s.uniqueId ∧
      m.isAnInstance = false ∧ lookupCloneId st m.uniqueId = none := by
  induction ss generalizing st sw with
  | nil => simp [instantiateSkeletonsE] at h
  | cons s ss ih =>
    cases hom : s.overrideMesh with
    | none =>
      simp only [instantiateSkeletonsE, hom] at h
      rcases bind_none_cases h with hml | ⟨r1, hml, h2⟩
      · obtain ⟨m, hm, h1, h2', h3⟩ := skeletonMeshLoopE_none _ _ _ _ _ hml
        exact ⟨s, List.mem_cons_self s ss, m, hm, h1, h2', h3⟩
      · rcases bind_none_cases h2 with hrest | ⟨rest, hrest, h3⟩
        · obtain ⟨s', hs', m, hm, h1, h2', h3'⟩ := ih _ _ hrest
          have hr1 := skeletonMeshLoopE_some _ _ _ _ _ hml
          have hst : lookupCloneId r1.1 m.uniqueId =
              lookupCloneId st m.uniqueId := by
            rw [hr1]
            exact skeletonMeshLoop_stable s _ sw _ md m.uniqueId
          exact ⟨s', List.mem_cons_of_mem s hs', m, hm, h1, h2',
            hst.symm.trans h3'⟩
        · simp at h3
    | some om =>
      simp only [instantiateSkeletonsE, hom] at h
      rcases bind_none_cases h with hml | ⟨r1, hml, h2⟩
      · obtain ⟨m, hm, h1, h2', h3⟩ := skeletonMeshLoopE_none _ _ _ _ _ hml
        exact ⟨s, List.mem_cons_self s ss, m, hm, h1, h2', h3⟩
      · rcases bind_none_cases h2 with hrest | ⟨rest, hrest, h3⟩
        · obtain ⟨s', hs', m, hm, h1, h2', h3'⟩ := ih _ _ hrest
          have hr1 := skeletonMeshLoopE_some _ _ _ _ _ hml
          have hst : lookupCloneId r1.1 m.uniqueId =
              lookupCloneId st m.uniqueId := by
            rw [hr1]
            exact skeletonMeshLoop_stable s _ sw _ md m.uniqueId
          exact ⟨s', List.mem_cons_of_mem s hs', m, hm, h1, h2',
            hst.symm.trans h3'⟩
        · simp at h3

/-! ## The claims -/

/-- C9 (corrected): the pass is one synchronous bounded traversal, but it
does not run to completion on every container.  With the source's error
path kept (`instantiateModelsRunE`), a completed run (`some`) coincides
with the total model, advances the identifier counter by exactly one per
cloned node, morph target and skeleton (`containerWeight`), and returns the
complete result — one skeleton clone per skeleton, one animation-group
clone per group, at most one root per captured entry, no retry, no
streaming.  An aborted run (`none`, the `TypeError` thrown by
`(copy as Mesh).skeleton = clone` on an `undefined` `copy`) happens only
when some non-instance mesh bound to a skeleton of the container has no
clone in the store after steps 1–2; it returns no result although the
node/mesh clones of steps 1–2 were already created — a partial pass. -/
theorem claimC9 (c : AssetContainer) (f0 : Nat) :
    (∀ out, instantiateModelsRunE c f0 = some out →
      out = instantiateModelsRun c f0 ∧
      out.1.fresh = f0 + containerWeight c ∧
      out.2.2.skeletons.length = c.skeletons.length ∧
      out.2.2.animationGroups.length = c.animationGroups.length ∧
      out.2.2.rootNodes.length ≤
        c.transformNodes.length + c.meshes.length) ∧
    (instantiateModelsRunE c f0 = none →
      ∃ s ∈ c.skeletons, ∃ m ∈ c.meshes.map HNode.data,
        m.skeleton = some s.uniqueId ∧ m.isAnInstance = false ∧
        lookupCloneId (cloneState c f0).1 m.uniqueId = none) := by
  constructor
  · intro out hout
    rw [instantiateModelsRunE, Option.map_eq_some'] at hout
    obtain ⟨sres, hs, hF⟩ := hout
    have hsr : sres = skeletonState c f0 :=
      instantiateSkeletonsE_some _ _ _ _ hs
    have hout' : out = instantiateModelsRun c f0 := by
      rw [← hF, hsr]; rfl
    subst hout'
    refine ⟨rfl, ?_, ?_, ?_, ?_⟩
    · show (skeletonState c f0).1.fresh = _
      simp only [skeletonState, cloneState]
      rw [instantiateSkeletons_fresh, instantiateRootList_fresh,
        instantiateRootList_fresh]
      simp only [initialState, containerWeight]
      omega
    · show (skeletonState c f0).2.2.length = _
      simp only [skeletonState]
      rw [instantiateSkeletons_length]
    · show (instantiateAnimationGroups (skeletonState c f0).1
        c.animationGroups).length = _
      rw [instantiateAnimationGroups_length]
    · show (cloneState c f0).2.length ≤ _
      simp only [cloneState]
      rw [List.length_append, instantiateRootList_length,
        instantiateRootList_length]
      have h1 := List.length_filter_le (fun o => decide ((HNode.data o).parent = none)) c.transformNodes
      have h2 := List.length_filter_le (fun o => decide ((HNode.data o).parent = none)) c.meshes
      omega
  · intro hnone
    rw [instantiateModelsRunE, Option.map_eq_none'] at hnone
    exact instantiateSkeletonsE_none _ _ _ _ hnone

theorem claimC9_witness :
    instantiateModelsRunE sampleSkeleton 100 =
      some (instantiateModelsRun sampleSkeleton 100) ∧
    (instantiateModelsRun sampleSkeleton 100).1.fresh =
      100 + containerWeight sampleSkeleton :=
  ⟨by decide,
    ((claimC9 sampleSkeleton 100).1 (instantiateModelsRun sampleSkeleton 100)
      (by decide)).2.1⟩

theorem claimC9_counterexample :
    instantiateModelsToSceneE sampleThrow 100 = none ∧
    lookupCloneId (cloneState sampleThrow 100).1 5 = none ∧
    sampleThrow.skeletons.length = 1 := by decide

/-- C8: every skeleton of the container is cloned and included in the
result's skeleton list — unconditionally, with no hypothesis about mesh
bindings — and the clone's name is the original's name prefixed with
"Clone of ". -/
theorem claimC8 (c : AssetContainer) (f0 : Nat) (j : Nat) (s0 : Skeleton)
    (hj : c.skeletons.get? j = some s0) :
    (instantiateModelsToScene c f0).skeletons.length = c.skeletons.length ∧
    ∃ cl, (instantiateModelsToScene c f0).skeletons.get? j = some cl ∧
      cl.name = "Clone of " ++ s0.name := by
  constructor
  · show (skeletonState c f0).2.2.length = _
    simp only [skeletonState]
    rw [instantiateSkeletons_length]
  · show ∃ cl, (skeletonState c f0).2.2.get? j = some cl ∧ _
    simp only [skeletonState]
    obtain ⟨cl, hcl, h1, h2, _⟩ := instantiateSkeletons_get
      (c.meshes.map HNode.data) (cloneState c f0).1 [] c.skeletons
      (by simp) j s0 hj
    exact ⟨cl, hcl, h2⟩

/-- C8 witness: the container `sampleOverride` holds two skeletons with no
bound meshes; both are cloned, and skeleton 0's clone is named
"Clone of a". -/
theorem claimC8_witness :
    (instantiateModelsToScene sampleOverride 100).skeletons.length =
      sampleOverride.skeletons.length ∧
    ∃ cl, (instantiateModelsToScene sampleOverride 100).skeletons.get? 0 =
      some cl ∧ cl.name = "Clone of " ++
        (⟨10, "a", some 1, []⟩ : Skeleton).name :=
  claimC8 sampleOverride 100 0 ⟨10, "a", some 1, []⟩ (by decide)

/-- C3: every animation group of the container is cloned; the clone carries
the same name and one target per original target, and for each index the
remapping function substitutes the clone when the original target's
identifier resolves through the Translation Table and Clone Store of the
finished pass, and leaves the original target unchanged when the lookup
misses. -/
theorem claimC3 (c : AssetContainer) (f0 : Nat) (j : Nat)
    (g : AnimationGroup) (hj : c.animationGroups.get? j = some g) :
    ∃ cg, (instantiateModelsToScene c f0).animationGroups.get? j = some cg ∧
      cg.name = g.name ∧
      cg.targets.length = g.targets.length ∧
      ∀ i t, g.targets.get? i = some t →
        (∀ nt, lookupCloneId (skeletonState c f0).1 t = some nt →
          cg.targets.get? i = some nt) ∧
        (lookupCloneId (skeletonState c f0).1 t = none →
          cg.targets.get? i = some t) := by
  refine ⟨_, instantiateAnimationGroups_get (skeletonState c f0).1
    c.animationGroups j g hj, rfl, by simp, ?_⟩
  intro i t ht
  constructor
  · intro nt hnt
    rw [List.get?_map, ht]
    simp [hnt]
  · intro hnone
    rw [List.get?_map, ht]
    simp [hnone]

/-- C3 witness: in `sampleSkeleton`, the animation group targets node 1
(captured, cloned as 100) and node 99 (outside the container): the clone's
first target is the clone 100, the second stays 99. -/
theorem claimC3_witness :
    ∃ cg, (instantiateModelsToScene sampleSkeleton 100).animationGroups.get? 0 =
      some cg ∧
      cg.name = ({ name := "g", targets := [1, 99] } : AnimationGroup).name ∧
      cg.targets.length =
        ({ name := "g", targets := [1, 99] } : AnimationGroup).targets.length ∧
      ∀ i t, ({ name := "g", targets := [1, 99] } : AnimationGroup).targets.get? i = some t →
        (∀ nt, lookupCloneId (skeletonState sampleSkeleton 100).1 t = some nt →
          cg.targets.get? i = some nt) ∧
        (lookupCloneId (skeletonState sampleSkeleton 100).1 t = none →
          cg.targets.get? i = some t) :=
  claimC3 sampleSkeleton 100 0 { name := "g", targets := [1, 99] } (by decide)

/-- C10 counterexample: with scene cameras `[1, 2]` and container cameras
`[2, 1]` (and no environment textures, so the claim's proviso holds),
`addAllToScene` followed by `removeAllFromScene` leaves the camera array as
`[2, 1]` — the scene is not restored to its prior contents as the claim
states: removal splices out the first occurrence of each object, so when the
scene already holds the container's objects the surviving occurrences are
the re-added ones, in container order. -/
theorem claimC10_counterexample :
    (removeAllFromScene sampleAssets (addAllToScene sampleAssets
      sampleScene)).cameras = [2, 1] ∧
    sampleScene.cameras = [1, 2] ∧
    ([2, 1] : List Nat) ≠ [1, 2] ∧
    ¬ (sampleScene.environmentTexture.isSome = true ∧
       sampleAssets.environmentTexture.isSome = true) := by decide

/-- C10 (amended): `removeAllFromScene` undoes `addAllToScene` up to order —
after add-then-remove every one of the fourteen asset collections holds
exactly the same objects with the same multiplicities as before (a
permutation of its prior contents; the exact order can differ only when the
scene already contained objects of the container), and the scene's
`environmentTexture` is restored provided the scene's and the container's
environment textures are not both non-null. -/
theorem claimC10 (c : ContainerAssets) (s : Scene) :
    ((removeAllFromScene c (addAllToScene c s)).cameras).Perm s.cameras ∧
    ((removeAllFromScene c (addAllToScene c s)).lights).Perm s.lights ∧
    ((removeAllFromScene c (addAllToScene c s)).meshes).Perm s.meshes ∧
    ((removeAllFromScene c (addAllToScene c s)).skeletons).Perm s.skeletons ∧
    ((removeAllFromScene c (addAllToScene c s)).animations).Perm s.animations ∧
    ((removeAllFromScene c (addAllToScene c s)).animationGroups).Perm
      s.animationGroups ∧
    ((removeAllFromScene c (addAllToScene c s)).multiMaterials).Perm
      s.multiMaterials ∧
    ((removeAllFromScene c (addAllToScene c s)).materials).Perm s.materials ∧
    ((removeAllFromScene c (addAllToScene c s)).morphTargetManagers).Perm
      s.morphTargetManagers ∧
    ((removeAllFromScene c (addAllToScene c s)).geometries).Perm
      s.geometries ∧
    ((removeAllFromScene c (addAllToScene c s)).transformNodes).Perm
      s.transformNodes ∧
    ((removeAllFromScene c (addAllToScene c s)).actionManagers).Perm
      s.actionManagers ∧
    ((removeAllFromScene c (addAllToScene c s)).textures).Perm s.textures ∧
    ((removeAllFromScene c (addAllToScene c s)).reflectionProbes).Perm
      s.reflectionProbes ∧
    (¬ (s.environmentTexture.isSome = true ∧
        c.environmentTexture.isSome = true) →
      (removeAllFromScene c (addAllToScene c s)).environmentTexture =
        s.environmentTexture) := by
  cases hce : c.environmentTexture with
  | none =>
    cases hse : s.environmentTexture with
    | none =>
      simp only [addAllToScene, removeAllFromScene, hce, hse, Option.isSome_none,
        Bool.false_eq_true, if_false, if_pos rfl]
      exact ⟨add_remove_bucket _ _, add_remove_bucket _ _, add_remove_bucket _ _,
        add_remove_bucket _ _, add_remove_bucket _ _, add_remove_bucket _ _,
        add_remove_bucket _ _, add_remove_bucket _ _, add_remove_bucket _ _,
        add_remove_bucket _ _, add_remove_bucket _ _, add_remove_bucket _ _,
        add_remove_bucket _ _, add_remove_bucket _ _, fun _ => by trivial⟩
    | some e =>
      simp only [addAllToScene, removeAllFromScene, hce, hse, Option.isSome_none,
        Bool.false_eq_true, if_false]
      rw [if_neg (by simp)]
      exact ⟨add_remove_bucket _ _, add_remove_bucket _ _, add_remove_bucket _ _,
        add_remove_bucket _ _, add_remove_bucket _ _, add_remove_bucket _ _,
        add_remove_bucket _ _, add_remove_bucket _ _, add_remove_bucket _ _,
        add_remove_bucket _ _, add_remove_bucket _ _, add_remove_bucket _ _,
        add_remove_bucket _ _, add_remove_bucket _ _, fun _ => by trivial⟩
  | some e =>
    cases hse : s.environmentTexture with
    | none =>
      simp only [addAllToScene, removeAllFromScene, hce, hse, Option.isSome_some,
        if_true, if_pos rfl]
      exact ⟨add_remove_bucket _ _, add_remove_bucket _ _, add_remove_bucket _ _,
        add_remove_bucket _ _, add_remove_bucket _ _, add_remove_bucket _ _,
        add_remove_bucket _ _, add_remove_bucket _ _, add_remove_bucket _ _,
        add_remove_bucket _ _, add_remove_bucket _ _, add_remove_bucket _ _,
        add_remove_bucket _ _, add_remove_bucket _ _, fun _ => by trivial⟩
    | some e2 =>
      simp only [addAllToScene, removeAllFromScene, hce, hse, Option.isSome_some,
        if_true, if_pos rfl]
      refine ⟨add_remove_bucket _ _, add_remove_bucket _ _, add_remove_bucket _ _,
        add_remove_bucket _ _, add_remove_bucket _ _, add_remove_bucket _ _,
        add_remove_bucket _ _, add_remove_bucket _ _, add_remove_bucket _ _,
        add_remove_bucket _ _, add_remove_bucket _ _, add_remove_bucket _ _,
        add_remove_bucket _ _, add_remove_bucket _ _, fun hns => ?_⟩
      exact absurd ⟨by trivial, by trivial⟩ hns

/-- C10 amended-claim witness: on `sampleScene2` (one environment texture,
meshes `[4, 5]`) and the disjoint `sampleAssets2` (no environment texture),
add-then-remove restores every collection up to permutation and the
environment texture exactly. -/
theorem claimC10_witness :
    ((removeAllFromScene sampleAssets2 (addAllToScene sampleAssets2
      sampleScene2)).meshes).Perm sampleScene2.meshes ∧
    (removeAllFromScene sampleAssets2 (addAllToScene sampleAssets2
      sampleScene2)).environmentTexture = sampleScene2.environmentTexture :=
  ⟨(claimC10 sampleAssets2 sampleScene2).2.2.1,
   (claimC10 sampleAssets2 sampleScene2).2.2.2.2.2.2.2.2.2.2.2.2.2.2
     (by decide)⟩

/-- C4 counterexample: in `sampleSkeleton`, skeleton 10's first bone is
linked to node 99, which is outside the container, so its identifier is
absent from the Translation Table, and a mesh bound to the skeleton makes
the bone-rewrite step run.  The claim says the cloned bone still refers to
the original node 99 after instantiation; in fact the assignment
`bone._linkedTransformNode = storeMap[convertionMap[99]]` stores the missed
lookup's result, clearing the link (JavaScript `undefined`), so the clone's
bone links are `[none, some 100]`, not `[some 99, some 100]`. -/
theorem claimC4_counterexample :
    ((instantiateModelsToScene sampleSkeleton 100).skeletons.map fun cl =>
      cl.bones.map Bone.linkedTransformNode) = [[none, some 100]] ∧
    [[(none : Option Nat), some 100]] ≠ [[some 99, some 100]] := by decide

/-- C4 (amended): during skeleton bone-link rewriting (which runs when some
captured non-instance mesh bound to the skeleton resolves in the Clone
Store), a bone linked to a transform node whose identifier misses in the
Translation Table/Clone Store has its link cleared — set to no node
(JavaScript `undefined`), not kept at the original — and no error is
raised (the rewrite is a total assignment and the pass completes). -/
theorem claimC4 (c : AssetContainer) (f0 : Nat) (j : Nat) (sj : Skeleton)
    (hj : c.skeletons.get? j = some sj)
    (hex : ∃ m ∈ c.meshes.map HNode.data, meshMatches sj m ∧
      (lookupCloneId (cloneState c f0).1 m.uniqueId).isSome = true)
    (bi : Nat) (b : Bone) (hb : sj.bones.get? bi = some b) (lid : Nat)
    (hlid : b.linkedTransformNode = some lid)
    (hmiss : lookupCloneId (cloneState c f0).1 lid = none) :
    ∃ cl, (instantiateModelsToScene c f0).skeletons.get? j = some cl ∧
      cl.bones.get? bi = some ⟨none⟩ := by
  show ∃ cl, (skeletonState c f0).2.2.get? j = some cl ∧ _
  simp only [skeletonState]
  obtain ⟨cl, hcl, _, _, _, h4, _⟩ := instantiateSkeletons_get
    (c.meshes.map HNode.data) (cloneState c f0).1 [] c.skeletons
    (by simp) j sj hj
  refine ⟨cl, hcl, ?_⟩
  rw [h4 hex]
  simp only [rewriteBones, List.get?_map, hb]
  simp [hlid, hmiss]

/-- C4 amended-claim witness: concrete run on `sampleSkeleton` — bone 0 of
the cloned skeleton ends with no linked transform node. -/
theorem claimC4_witness :
    ∃ cl, (instantiateModelsToScene sampleSkeleton 100).skeletons.get? 0 =
      some cl ∧ cl.bones.get? 0 = some ⟨none⟩ :=
  claimC4 sampleSkeleton 100 0
    ⟨10, "s", none, [⟨some 99⟩, ⟨some 1⟩]⟩ (by decide) (by decide) 0
    ⟨some 99⟩ (by decide) 99 (by decide) (by decide)

/-- C5: for a skeleton declaring an override mesh — when the override mesh
resolves through the Translation Table/Clone Store built by the cloning
steps (in particular whenever the mesh is part of the captured set, third
conjunct), the cloned skeleton's override mesh is set to that mesh's clone;
when the lookup misses (the mesh is absent from the captured set), the
clone's override mesh is left unset (`none`), and no exception is raised —
the pass is total and still yields the skeleton clone. -/
theorem claimC5 (c : AssetContainer) (f0 : Nat) (j : Nat) (sj : Skeleton)
    (hj : c.skeletons.get? j = some sj) (om : Nat)
    (hom : sj.overrideMesh = some om) :
    (∀ cid, lookupCloneId (cloneState c f0).1 om = some cid →
      ∃ cl, (instantiateModelsToScene c f0).skeletons.get? j = some cl ∧
        cl.overrideMesh = some cid) ∧
    (lookupCloneId (cloneState c f0).1 om = none →
      ∃ cl, (instantiateModelsToScene c f0).skeletons.get? j = some cl ∧
        cl.overrideMesh = none) ∧
    (om ∈ (capturedNodes c).map NodeData.uniqueId →
      (lookupCloneId (cloneState c f0).1 om).isSome = true) := by
  have hget := instantiateSkeletons_get (c.meshes.map HNode.data)
    (cloneState c f0).1 [] c.skeletons (by simp) j sj hj
  obtain ⟨cl, hcl, _, _, h3, _⟩ := hget
  refine ⟨?_, ?_, ?_⟩
  · intro cid hcid
    refine ⟨cl, hcl, ?_⟩
    rw [h3, hom]
    exact hcid
  · intro hnone
    refine ⟨cl, hcl, ?_⟩
    rw [h3, hom]
    exact hnone
  · exact cloneState_lookup_of_captured c f0 om

/-- C5 witness: in `sampleOverride`, skeleton 10's override mesh is the
captured mesh 1 (clone 101 resolves to it), so the clone's override mesh is
set to the mesh's clone; also mesh 1 is in the captured set, so the lookup
succeeds. -/
theorem claimC5_witness :
    (∀ cid, lookupCloneId (cloneState sampleOverride 100).1 1 = some cid →
      ∃ cl, (instantiateModelsToScene sampleOverride 100).skeletons.get? 0 =
        some cl ∧ cl.overrideMesh = some cid) ∧
    (lookupCloneId (cloneState sampleOverride 100).1 1 = none →
      ∃ cl, (instantiateModelsToScene sampleOverride 100).skeletons.get? 0 =
        some cl ∧ cl.overrideMesh = none) ∧
    (1 ∈ (capturedNodes sampleOverride).map NodeData.uniqueId →
      (lookupCloneId (cloneState sampleOverride 100).1 1).isSome = true) :=
  claimC5 sampleOverride 100 0 ⟨10, "a", some 1, []⟩ (by decide) 1 (by decide)

/-- C7: within one pass the bone-rewrite step runs at most once per distinct
cloned skeleton — the `alreadySwapped` log has no duplicate entries — and
for a skeleton to which at least one captured non-instance resolvable mesh
is bound it runs exactly once (the skeleton clone's identifier appears
exactly once in the log); repeat bindings of further meshes to the same
cloned skeleton skip the rewrite. -/
theorem claimC7 (c : AssetContainer) (f0 : Nat) :
    (instantiateModelsRun c f0).2.1.Nodup ∧
    ∀ j sj, c.skeletons.get? j = some sj →
      (∃ m ∈ c.meshes.map HNode.data, meshMatches sj m ∧
        (lookupCloneId (cloneState c f0).1 m.uniqueId).isSome = true) →
      ∃ cl, (instantiateModelsToScene c f0).skeletons.get? j = some cl ∧
        List.count cl.uniqueId (instantiateModelsRun c f0).2.1 = 1 := by
  have hnodup := instantiateSkeletons_swapped_nodup (c.meshes.map HNode.data)
    (cloneState c f0).1 [] c.skeletons (by simp) (by simp)
  refine ⟨hnodup.1, ?_⟩
  intro j sj hj hex
  obtain ⟨cl, hcl, h1, _⟩ := instantiateSkeletons_get
    (c.meshes.map HNode.data) (cloneState c f0).1 [] c.skeletons
    (by simp) j sj hj
  have hmem := instantiateSkeletons_swapped_mem (c.meshes.map HNode.data)
    (cloneState c f0).1 [] c.skeletons j sj hj (by simp) hex
  refine ⟨cl, hcl, ?_⟩
  rw [h1]
  exact List.count_eq_one_of_mem hnodup.1 hmem

/-- C7 witness: in `sampleTwoMeshes`, two meshes bind skeleton 10; the
rewrite log holds the skeleton clone's identifier exactly once. -/
theorem claimC7_witness :
    (instantiateModelsRun sampleTwoMeshes 100).2.1.Nodup ∧
    ∃ cl, (instantiateModelsToScene sampleTwoMeshes 100).skeletons.get? 0 =
      some cl ∧
      List.count cl.uniqueId (instantiateModelsRun sampleTwoMeshes 100).2.1 = 1 :=
  ⟨(claimC7 sampleTwoMeshes 100).1,
   (claimC7 sampleTwoMeshes 100).2 0 ⟨10, "s", none, [⟨some 1⟩]⟩ (by decide)
     (by decide)⟩

/-- C6: for every skeleton of the container (identifiers assumed distinct,
as the engine guarantees) and every captured non-instance mesh bound to it
whose clone resolves through the Translation Table/Clone Store, the pass
rebinds the mesh's clone to the skeleton's clone: after
`instantiateModelsToScene` the Clone Store entry of the mesh clone carries
the cloned skeleton's identifier — not the original skeleton's — as its
skeleton reference. -/
theorem claimC6 (c : AssetContainer) (f0 : Nat) (j : Nat) (sj : Skeleton)
    (hj : c.skeletons.get? j = some sj)
    (hndS : (c.skeletons.map Skeleton.uniqueId).Nodup)
    (hndM : ((c.meshes.map HNode.data).map NodeData.uniqueId).Nodup)
    (m : NodeData) (hm : m ∈ c.meshes.map HNode.data)
    (hmm : meshMatches sj m) (copyId : Nat)
    (hres : lookupCloneId (cloneState c f0).1 m.uniqueId = some copyId)
    (hnode : ∃ d, List.lookup copyId (cloneState c f0).1.storeMap =
      some (.node d)) :
    ∃ cl d', (instantiateModelsToScene c f0).skeletons.get? j = some cl ∧
      List.lookup copyId (instantiateModelsRun c f0).1.storeMap =
        some (.node d') ∧
      d'.skeleton = some cl.uniqueId := by
  have hconvnd := cloneState_conv_nodup c f0
  have hother : ∀ i, i ≠ j → ∀ si, c.skeletons.get? i = some si →
      ∀ m' ∈ c.meshes.map HNode.data, meshMatches si m' →
      lookupCloneId (cloneState c f0).1 m'.uniqueId ≠ some copyId := by
    intro i hi si hsi m' hm' hmm' heq
    have h1 := (lookupCloneId_some heq).1
    have h2 := (lookupCloneId_some hres).1
    have huid : m'.uniqueId = m.uniqueId :=
      lookup_inj_of_nodup_values hconvnd h1 h2
    have hmeq : m' = m := List.inj_on_of_nodup_map hndM hm' hm huid
    subst hmeq
    have hsuid : si.uniqueId = sj.uniqueId := by
      have ha := hmm'.1
      have hb := hmm.1
      rw [ha] at hb
      exact (Option.some.injEq _ _).mp hb
    have hgi : (c.skeletons.map Skeleton.uniqueId).get? i =
        some sj.uniqueId := by
      rw [List.get?_map, hsi]
      simp [hsuid]
    have hgj : (c.skeletons.map Skeleton.uniqueId).get? j =
        some sj.uniqueId := by
      rw [List.get?_map, hj]
      rfl
    exact hi (nodup_get?_inj hndS hgi hgj)
  obtain ⟨d', hd1, hd2⟩ := instantiateSkeletons_c6 (c.meshes.map HNode.data)
    (cloneState c f0).1 [] c.skeletons j sj hj copyId
    ⟨m, hm, hmm, hres⟩ hnode hother
  obtain ⟨cl, hcl, h1, _⟩ := instantiateSkeletons_get
    (c.meshes.map HNode.data) (cloneState c f0).1 [] c.skeletons
    (by simp) j sj hj
  refine ⟨cl, d', hcl, hd1, ?_⟩
  rw [hd2, h1]

/-- C6 witness: in `sampleSkeleton`, mesh 1 (clone 100) is bound to
skeleton 10; after the pass the store entry for clone 100 carries the
skeleton clone's identifier 101. -/
theorem claimC6_witness :
    ∃ cl d', (instantiateModelsToScene sampleSkeleton 100).skeletons.get? 0 =
      some cl ∧
      List.lookup 100 (instantiateModelsRun sampleSkeleton 100).1.storeMap =
        some (.node d') ∧
      d'.skeleton = some cl.uniqueId :=
  claimC6 sampleSkeleton 100 0 ⟨10, "s", none, [⟨some 99⟩, ⟨some 1⟩]⟩
    (by decide) (by decide) (by decide)
    { uniqueId := 1, parent := none, isMesh := true,
      morphTargetManager := none, skeleton := some 10, isAnInstance := false }
    (by decide) (by exact ⟨rfl, rfl⟩) 100 (by decide)
    ⟨{ uniqueId := 100, parent := none, isMesh := true,
       morphTargetManager := none, skeleton := some 10,
       isAnInstance := false }, by decide⟩

/-- C1: the result's root-node list contains exactly one clone per
parentless transform node and per parentless mesh of the container — its
length is the number of parentless entries of the two arrays and its
entries are pairwise distinct clones — and each root clone has no parent;
entries with a parent are never instantiated independently (they contribute
no root), only as descendants within their root's hierarchy clone. -/
theorem claimC1 (c : AssetContainer) (f0 : Nat) :
    (instantiateModelsToScene c f0).rootNodes.length =
      (c.transformNodes.filter fun o => o.data.parent = none).length +
      (c.meshes.filter fun o => o.data.parent = none).length ∧
    (instantiateModelsToScene c f0).rootNodes.Nodup ∧
    ∀ r ∈ (instantiateModelsToScene c f0).rootNodes,
      ∃ d', List.lookup r (instantiateModelsRun c f0).1.storeMap =
        some (.node d') ∧ d'.parent = none ∧ d'.uniqueId = r := by
  refine ⟨?_, ?_, ?_⟩
  · show (cloneState c f0).2.length = _
    simp only [cloneState]
    rw [List.length_append, instantiateRootList_length,
      instantiateRootList_length]
  · show (cloneState c f0).2.Nodup
    simp only [cloneState]
    have hsorted : List.Pairwise (fun a b => a < b)
        ((instantiateRootList (initialState f0) c.transformNodes).2 ++
         (instantiateRootList (instantiateRootList (initialState f0)
           c.transformNodes).1 c.meshes).2) := by
      rw [List.pairwise_append]
      refine ⟨instantiateRootList_sorted _ _, instantiateRootList_sorted _ _,
        ?_⟩
      intro a ha b hb
      have h1 := instantiateRootList_bounds (initialState f0)
        c.transformNodes a ha
      have h2 := instantiateRootList_bounds
        (instantiateRootList (initialState f0) c.transformNodes).1
        c.meshes b hb
      omega
    exact hsorted.imp Nat.ne_of_lt
  · show ∀ r ∈ (cloneState c f0).2, _
    simp only [cloneState]
    intro r hr
    have hstore : ∃ d', List.lookup r
        (cloneState c f0).1.storeMap = some (.node d') ∧
        d'.parent = none ∧ d'.uniqueId = r := by
      simp only [cloneState]
      rcases List.mem_append.mp hr with h | h
      · obtain ⟨d', hd, hpar, huid⟩ := instantiateRootList_parent
          (initialState f0) c.transformNodes r h
        refine ⟨d', ?_, hpar, huid⟩
        rw [StepAdds_store_lookup (instantiateRootList_step _ c.meshes)
          (instantiateRootList_bounds (initialState f0)
            c.transformNodes r h).2]
        exact hd
      · exact instantiateRootList_parent _ c.meshes r h
    obtain ⟨d', hd, hpar, huid⟩ := hstore
    have hmod := (instantiateSkeletons_skelMod (c.meshes.map HNode.data)
      (cloneState c f0).1 [] c.skeletons r).2 _ hd
    obtain ⟨e', he', hrel⟩ := hmod
    rcases hrel with h1 | ⟨sk, h1⟩
    · subst h1
      exact ⟨d', he', hpar, huid⟩
    · subst h1
      exact ⟨{ d' with skeleton := some sk }, he', hpar, huid⟩

/-- C1 witness: `sampleHierarchy` has one parentless transform node and two
parented meshes — one root clone results, stored with no parent. -/
theorem claimC1_witness :
    (instantiateModelsToScene sampleHierarchy 100).rootNodes.length = 1 + 0 ∧
    ∃ d', List.lookup 100
        (instantiateModelsRun sampleHierarchy 100).1.storeMap =
      some (.node d') ∧ d'.parent = none ∧ d'.uniqueId = 100 :=
  ⟨(claimC1 sampleHierarchy 100).1,
   (claimC1 sampleHierarchy 100).2.2 100 (by decide)⟩

/-- C2: every captured mesh owning a morph-target manager is cloned with a
cloned manager holding the same number of targets, each cloned target's
identifier differs from the original's (clone identifiers are fresh, above
the scene's counter `f0`), and for every target index the (original id,
clone id) pair is recorded in the Translation Table and the cloned target
in the Clone Store, exactly as the node pair itself is recorded. -/
theorem claimC2 (c : AssetContainer) (f0 : Nat) (d0 : NodeData)
    (hmem : d0 ∈ capturedNodes c) (hmesh : d0.isMesh = true)
    (M : MorphTargetManager) (hM : d0.morphTargetManager = some M)
    (hids : ∀ t ∈ M.targets, t.uniqueId < f0) :
    ∃ cid d', (d0.uniqueId, cid) ∈ (instantiateModelsRun c f0).1.convertionMap ∧
      List.lookup cid (instantiateModelsRun c f0).1.storeMap =
        some (.node d') ∧
      ∃ M', d'.morphTargetManager = some M' ∧
        M'.targets.length = M.targets.length ∧
        ∀ i ot nt, M.targets.get? i = some ot → M'.targets.get? i = some nt →
          (ot.uniqueId, nt.uniqueId) ∈
            (instantiateModelsRun c f0).1.convertionMap ∧
          (nt.uniqueId, StoredEntity.target nt) ∈
            (instantiateModelsRun c f0).1.storeMap ∧
          nt.uniqueId ≠ ot.uniqueId := by
  obtain ⟨cid, d', hb, hlt, hconv, hstore, huid, hmorph⟩ :=
    cloneState_recorded c f0 d0 hmem
  obtain ⟨M', hM', hlen, hidx⟩ := hmorph M hmesh hM
  have hconvfin : (instantiateModelsRun c f0).1.convertionMap =
      (cloneState c f0).1.convertionMap := by
    show (skeletonState c f0).1.convertionMap = _
    simp only [skeletonState]
    exact instantiateSkeletons_conv _ _ _ _
  obtain ⟨e', he', hrel⟩ := (instantiateSkeletons_skelMod
    (c.meshes.map HNode.data) (cloneState c f0).1 [] c.skeletons cid).2 _
    hstore
  have hcore : ∃ d2, e' = StoredEntity.node d2 ∧
      d2.morphTargetManager = d'.morphTargetManager := by
    rcases hrel with h1 | ⟨sk, h1⟩
    · exact ⟨d', h1, rfl⟩
    · exact ⟨{ d' with skeleton := some sk }, h1, rfl⟩
  obtain ⟨d2, he2, hm2⟩ := hcore
  subst he2
  refine ⟨cid, d2, by rw [hconvfin]; exact hconv, he', M',
    by rw [hm2]; exact hM', hlen, ?_⟩
  intro i ot nt hot hnt
  obtain ⟨hi, hgot⟩ := List.get?_eq_some.mp hot
  obtain ⟨hi', hgnt⟩ := List.get?_eq_some.mp hnt
  obtain ⟨hpair, hst, hfresh⟩ := hidx i hi hi'
  rw [hgot, hgnt] at hpair
  rw [hgnt] at hst hfresh
  refine ⟨by rw [hconvfin]; exact hpair, ?_, ?_⟩
  · show _ ∈ (skeletonState c f0).1.storeMap
    simp only [skeletonState]
    exact instantiateSkeletons_target_mem _ _ _ _ hst
  · have hlt2 := hids ot (List.get?_mem hot)
    intro h
    omega

/-- C2 witness: in `sampleMorph`, mesh 1 carries a two-target manager
(target ids 50 and 51, both below the counter start 100); the clone's
manager has two targets with fresh distinct identifiers, all pairs
recorded. -/
theorem claimC2_witness :
    ∃ cid d', (1, cid) ∈ (instantiateModelsRun sampleMorph 100).1.convertionMap ∧
      List.lookup cid (instantiateModelsRun sampleMorph 100).1.storeMap =
        some (.node d') ∧
      ∃ M', d'.morphTargetManager = some M' ∧
        M'.targets.length = (⟨[⟨50⟩, ⟨51⟩]⟩ : MorphTargetManager).targets.length ∧
        ∀ i ot nt, (⟨[⟨50⟩, ⟨51⟩]⟩ : MorphTargetManager).targets.get? i = some ot →
          M'.targets.get? i = some nt →
          (ot.uniqueId, nt.uniqueId) ∈
            (instantiateModelsRun sampleMorph 100).1.convertionMap ∧
          (nt.uniqueId, StoredEntity.target nt) ∈
            (instantiateModelsRun sampleMorph 100).1.storeMap ∧
          nt.uniqueId ≠ ot.uniqueId :=
  claimC2 sampleMorph 100
    { uniqueId := 1, parent := none, isMesh := true,
      morphTargetManager := some ⟨[⟨50⟩, ⟨51⟩]⟩, skeleton := none,
      isAnInstance := false }
    (by decide) (by decide) ⟨[⟨50⟩, ⟨51⟩]⟩ (by decide) (by decide)
